import Mathlib

/-!
Shallow embedding of the ExCore real-time connection fan-out registry
(`WebSocketManager`, file src/unnamed/part_018, and the SSE frame encoder of
`SSEManager`, src/packages/core/src/adapters/realtime/SSEManager.ts).

Modelling conventions:
* A JS `Map` is an association list in insertion order: `Map.get` returns the
  first binding, `Map.set` overwrites in place (keeping the position) or
  appends, `Map.delete` removes the binding.  A JS `Set` of strings is a
  duplicate-free list in insertion order.
* JS string truthiness (`if (userId)`) is `userId` being defined and nonempty;
  number truthiness (`if (event.retry)`) is the number being nonzero.
* The transport closures `sendFn` / `closeFn` handed to `addConnection` are
  identified by numeric tags; an environment `Env` maps a send tag to the
  behaviour of that closure (`none` = the call returned, `some e` = it threw
  an exception whose `.message` is `e`).  `JSON.parse` is a runtime builtin,
  not code of this repository, so `handleMessage` takes the parse function as
  a parameter; counterexamples instantiate it consistently with real
  `JSON.parse` at the inputs they use.
* `Date.now()` is passed in as the parameter `now`.
* JS exceptions are modelled with `Except` / an `Option String` error
  component; a function that can only throw before mutating anything returns
  `Except` with no state in the error case (in the source the `throw` is the
  first statement, before any mutation).
-/

namespace ExCore

/-- JS `Map.get`: the value of the first binding of `k`, if any. -/
def mget {β : Type} : List (String × β) → String → Option β
  | [], _ => none
  | (k', v) :: rest, k => if k' = k then some v else mget rest k

/-- JS `Map.set`: overwrite the first binding of `k` in place, else append. -/
def mset {β : Type} : List (String × β) → String → β → List (String × β)
  | [], k, v => [(k, v)]
  | (k', v') :: rest, k, v =>
      if k' = k then (k, v) :: rest else (k', v') :: mset rest k v

/-- JS `Map.delete`: remove the first binding of `k`. -/
def mdelete {β : Type} : List (String × β) → String → List (String × β)
  | [], _ => []
  | (k', v') :: rest, k => if k' = k then rest else (k', v') :: mdelete rest k

/-- JS `Set.add`: append `x` unless already a member. -/
def sadd (s : List String) (x : String) : List String :=
  if x ∈ s then s else s ++ [x]

/-- JS `Set.delete`: remove `x` (sets built by `sadd` hold it at most once). -/
def sdelete (s : List String) (x : String) : List String :=
  s.erase x

/-- Truthiness of a JS `string | undefined`: defined and nonempty. -/
def truthyStr : Option String → Bool
  | none => false
  | some s => !(s = "")

/-- Truthiness of a JS `number | undefined`: defined and nonzero. -/
def truthyInt : Option Int → Bool
  | none => false
  | some n => !(n = 0)

/-- JS values, for message payloads and `JSON.stringify`. -/
inductive Js where
  | null : Js
  | bool : Bool → Js
  | num : Int → Js
  | str : String → Js
  | arr : List Js → Js
  | obj : List (String × Js) → Js

/-- `JSON.stringify` escaping of one character inside a string literal. -/
def escapeChar (c : Char) : String :=
  if c = '\x22' then "\\\x22"
  else if c = '\\' then "\\\\"
  else if c = '\n' then "\\n"
  else if c = '\r' then "\\r"
  else if c = '\t' then "\\t"
  else String.singleton c

/-- `JSON.stringify` escaping of a string (single-line output). -/
def escapeString (s : String) : String :=
  String.join (s.toList.map escapeChar)

mutual

/-- `JSON.stringify`: canonical single-line serialization of a JS value. -/
def Js.stringify : Js → String
  | .null => "null"
  | .bool b => if b then "true" else "false"
  | .num n => toString n
  | .str s => "\x22" ++ escapeString s ++ "\x22"
  | .arr xs => "[" ++ Js.stringifyList xs ++ "]"
  | .obj fs => "\x7b" ++ Js.stringifyFields fs ++ "\x7d"

/-- Comma-separated serialization of array elements. -/
def Js.stringifyList : List Js → String
  | [] => ""
  | [x] => Js.stringify x
  | x :: y :: rest => Js.stringify x ++ "," ++ Js.stringifyList (y :: rest)

/-- Comma-separated serialization of object fields. -/
def Js.stringifyFields : List (String × Js) → String
  | [] => ""
  | [f] => "\x22" ++ escapeString f.1 ++ "\x22:" ++ Js.stringify f.2
  | f :: g :: rest =>
      "\x22" ++ escapeString f.1 ++ "\x22:" ++ Js.stringify f.2 ++ "," ++
        Js.stringifyFields (g :: rest)

end

/-! ### Data model of `WebSocketManager` (src/unnamed/part_018) -/

/-- Manager options after the constructor has applied the defaults
(`?? 30000`, `?? 300000`, `?? 10`, `?? 1024 * 1024`). -/
structure ManagerOptions where
  heartbeatInterval : Nat := 30000
  connectionTimeout : Nat := 300000
  maxConnectionsPerUser : Nat := 10
  maxMessageSize : Nat := 1048576
deriving DecidableEq

/-- One `WebSocketConnection` record.  `sendTag` / `closeTag` identify the
`sendFn` / `closeFn` closures captured at registration (`connectedAt` is
omitted: no claim observes it). -/
structure WSConnection where
  id : String
  userId : Option String := none
  channel : Option String := none
  sendTag : Nat := 0
  closeTag : Nat := 0
deriving DecidableEq

/-- The manager's mutable registry state: the fields `connections`,
`userConnections` and `channelConnections` of `WebSocketManager`. -/
structure ManagerState where
  connections : List (String × WSConnection) := []
  userConnections : List (String × List String) := []
  channelConnections : List (String × List String) := []
deriving DecidableEq

/-- The state of a freshly constructed manager: all three maps empty. -/
def initialState : ManagerState := {}

/-- `getUserConnectionCount`: `this.userConnections.get(userId)?.size ?? 0`. -/
def getUserConnectionCount (s : ManagerState) (userId : String) : Nat :=
  match mget s.userConnections userId with
  | none => 0
  | some conns => conns.length

/-- `getChannelConnectionCount`: `this.channelConnections.get(channel)?.size ?? 0`. -/
def getChannelConnectionCount (s : ManagerState) (channel : String) : Nat :=
  match mget s.channelConnections channel with
  | none => 0
  | some conns => conns.length

/-- `getConnectionCount`: `this.connections.size`. -/
def getConnectionCount (s : ManagerState) : Nat :=
  s.connections.length

/-- `getConnection`: `this.connections.get(connectionId)`. -/
def getConnection (s : ManagerState) (connectionId : String) : Option WSConnection :=
  mget s.connections connectionId

/-- The error thrown by `addConnection`:
`Maximum connections (N) exceeded for user U`. -/
inductive AddError where
  | quotaExceeded : Nat → String → AddError
deriving DecidableEq

/-- The admission guard of `addConnection`:
`userId && this.getUserConnectionCount(userId) >= this.options.maxConnectionsPerUser!`. -/
def quotaRejected (opts : ManagerOptions) (s : ManagerState)
    (userId : Option String) : Bool :=
  match userId with
  | none => false
  | some u =>
      if u = "" then false
      else decide (getUserConnectionCount s u ≥ opts.maxConnectionsPerUser)

/-- The JS idiom `if (!m.has(k)) m.set(k, new Set()); m.get(k)!.add(x)`. -/
def indexAdd (m : List (String × List String)) (k x : String) :
    List (String × List String) :=
  match mget m k with
  | none => mset m k (sadd [] x)
  | some s => mset m k (sadd s x)

/-- `addConnection(connectionId, sendFn, closeFn, userId?, channel?)`.
On quota rejection the source throws before any mutation, so the error case
carries no state (the caller's state is unchanged).  Note the source has no
duplicate-id check: `connections.set` overwrites an existing record in place
while the index updates only add. -/
def addConnection (opts : ManagerOptions) (s : ManagerState)
    (connectionId : String) (sendTag closeTag : Nat)
    (userId channel : Option String) :
    Except AddError (ManagerState × WSConnection) :=
  if quotaRejected opts s userId then
    .error (.quotaExceeded opts.maxConnectionsPerUser (userId.getD ""))
  else
    let conn : WSConnection :=
      { id := connectionId, userId := userId, channel := channel,
        sendTag := sendTag, closeTag := closeTag }
    let s1 : ManagerState :=
      { s with connections := mset s.connections connectionId conn }
    let s2 : ManagerState :=
      if truthyStr userId then
        { s1 with userConnections :=
            indexAdd s1.userConnections (userId.getD "") connectionId }
      else s1
    let s3 : ManagerState :=
      if truthyStr channel then
        { s2 with channelConnections :=
            indexAdd s2.channelConnections (channel.getD "") connectionId }
      else s2
    .ok (s3, conn)

/-- The removal pattern shared by the two index maps: delete the id from the
set under `k` if the key exists, and drop the key when its set becomes empty. -/
def indexRemove (m : List (String × List String)) (k x : String) :
    List (String × List String) :=
  match mget m k with
  | none => m
  | some conns =>
      let conns' := sdelete conns x
      if conns' = [] then mdelete m k else mset m k conns'

/-- `removeConnection(connectionId)`: look up the record; if absent return;
otherwise drop the id from the user index (when its userId is truthy), from
the channel index (when its channel is truthy), and from `connections`. -/
def removeConnection (s : ManagerState) (connectionId : String) : ManagerState :=
  match mget s.connections connectionId with
  | none => s
  | some conn =>
      let s1 : ManagerState :=
        if truthyStr conn.userId then
          { s with userConnections :=
              indexRemove s.userConnections (conn.userId.getD "") connectionId }
        else s
      let s2 : ManagerState :=
        if truthyStr conn.channel then
          { s1 with channelConnections :=
              indexRemove s1.channelConnections (conn.channel.getD "") connectionId }
        else s1
      { s2 with connections := mdelete s2.connections connectionId }

/-! ### Transports, outbound messages and the publish operations -/

/-- One observable invocation of a transport closure. -/
inductive TransportEvent where
  | sent : Nat → String → TransportEvent
  | closed : Nat → Option Nat → Option String → TransportEvent
deriving DecidableEq

/-- Behaviour of the `sendFn` closures: for a send tag and the wire string,
`none` means the call returned normally, `some e` that it threw `e`. -/
def Env : Type := Nat → String → Option String

/-- A `WebSocketMessage` value (`payload` is an arbitrary JS value). -/
structure WebSocketMessage where
  type : String
  payload : Js
  id : Option String := none
  timestamp : Option Int := none

/-- The wire encoding built by `sendMessage`:
`JSON.stringify({...message, timestamp: message.timestamp ?? Date.now()})`. -/
def encodeWsMessage (m : WebSocketMessage) (now : Int) : String :=
  Js.stringify (.obj
    ([("type", .str m.type), ("payload", m.payload)] ++
      (match m.id with | some i => [("id", .str i)] | none => []) ++
      [("timestamp", .num (m.timestamp.getD now))]))

/-- `sendMessage(sendFn, message)`: encode with the timestamp defaulted to
`now`, then invoke `sendFn`.  Returns the wire string handed to `sendFn`
and the exception it threw, if any. -/
def sendMessage (env : Env) (sendTag : Nat) (message : WebSocketMessage)
    (now : Int) : String × Option String :=
  let data := encodeWsMessage message now
  (data, env sendTag data)

/-- The record's `send` closure:
`send: (message) => this.sendMessage(sendFn, message)`.  It reads no registry
state — only the captured `sendFn` (here: the captured tag). -/
def WSConnection.send (env : Env) (conn : WSConnection)
    (message : WebSocketMessage) (now : Int) : String × Option String :=
  sendMessage env conn.sendTag message now

/-- The record's `close` closure:
`close: (code, reason) => { closeFn(code, reason); this.removeConnection(connectionId); }`.
There is no guard: every call invokes `closeFn` and then `removeConnection`. -/
def closeOnce (s : ManagerState) (conn : WSConnection) (code : Option Nat)
    (reason : Option String) : ManagerState × List TransportEvent :=
  (removeConnection s conn.id, [.closed conn.closeTag code reason])

/-- Calling the record's `close` closure `n` times in a row. -/
def closeTimes (conn : WSConnection) (code : Option Nat)
    (reason : Option String) : Nat → ManagerState → ManagerState × List TransportEvent
  | 0, s => (s, [])
  | n + 1, s =>
      let r := closeOnce s conn code reason
      let rest := closeTimes conn code reason n r.1
      (rest.1, r.2 ++ rest.2)

/-- `sendToConnection(connectionId, message)`: absent id gives `false`;
otherwise `connection.send(message)` runs — and if `sendFn` throws, the
exception propagates (there is no catch in the source). -/
def sendToConnection (env : Env) (s : ManagerState) (connectionId : String)
    (message : WebSocketMessage) (now : Int) : Except String Bool :=
  match mget s.connections connectionId with
  | none => .ok false
  | some conn =>
      match (WSConnection.send env conn message now).2 with
      | some e => .error e
      | none => .ok true

/-- The counting loop shared by `sendToUser` and `sendToChannel`:
`for (const connectionId of connectionIds) if (sendToConnection(...)) sent++`.
An exception from any iteration propagates, losing the count so far. -/
def sendLoop (env : Env) (s : ManagerState) (ids : List String)
    (message : WebSocketMessage) (now : Int) : Except String Nat :=
  match ids with
  | [] => .ok 0
  | id :: rest =>
      match sendToConnection env s id message now with
      | .error e => .error e
      | .ok true => (sendLoop env s rest message now).map (· + 1)
      | .ok false => sendLoop env s rest message now

/-- `sendToUser(userId, message)`. -/
def sendToUser (env : Env) (s : ManagerState) (userId : String)
    (message : WebSocketMessage) (now : Int) : Except String Nat :=
  match mget s.userConnections userId with
  | none => .ok 0
  | some ids => sendLoop env s ids message now

/-- `sendToChannel(channel, message)`. -/
def sendToChannel (env : Env) (s : ManagerState) (channel : String)
    (message : WebSocketMessage) (now : Int) : Except String Nat :=
  match mget s.channelConnections channel with
  | none => .ok 0
  | some ids => sendLoop env s ids message now

/-- `broadcast`'s loop over `this.connections.values()`. -/
def broadcastLoop (env : Env) (conns : List WSConnection)
    (message : WebSocketMessage) (now : Int) : Except String Nat :=
  match conns with
  | [] => .ok 0
  | c :: rest =>
      match (WSConnection.send env c message now).2 with
      | some e => .error e
      | none => (broadcastLoop env rest message now).map (· + 1)

/-- `broadcast(message)`: send to every record, counting each one; an
exception from any `send` propagates. -/
def broadcast (env : Env) (s : ManagerState) (message : WebSocketMessage)
    (now : Int) : Except String Nat :=
  broadcastLoop env (s.connections.map Prod.snd) message now

/-! ### The inbound dispatcher `handleMessage` -/

/-- The outcome of awaiting a registered handler on `(connection, message)`:
`.ok ()` if it returned, `.error e` if it threw or rejected with `e`. -/
def HandlerFn : Type := WSConnection → WebSocketMessage → Except String Unit

/-- The ambient pieces `handleMessage` runs against: the options, the
transport behaviours, the runtime's `JSON.parse` (a builtin, passed in as a
function; a parsed object with a falsy `type` is modelled by `type = ""`),
the `messageHandlers` map, and the clock. -/
structure HandleCtx where
  opts : ManagerOptions
  env : Env
  parse : String → Except String WebSocketMessage
  handlers : List (String × HandlerFn)
  now : Int

/-- The error frame `{type: "error", payload: {error: message}}`. -/
def errorFrame (message : String) : WebSocketMessage :=
  { type := "error", payload := .obj [("error", .str message)] }

/-- The `try` block of `handleMessage`, in source order: parse, then the
type check, then the size check (`rawMessage.length > maxMessageSize`), then
handler lookup; the no-handler error send happens inside the `try`.
Returns the transport invocations made and the error that the `catch` will
receive, if any. -/
def handleBody (ctx : HandleCtx) (conn : WSConnection) (raw : String) :
    List TransportEvent × Option String :=
  match ctx.parse raw with
  | .error e => ([], some e)
  | .ok message =>
      if message.type = "" then
        ([], some "Message type is required")
      else if raw.length > ctx.opts.maxMessageSize then
        ([], some "Message size exceeds maximum allowed size")
      else
        match mget ctx.handlers message.type with
        | some handler =>
            match handler conn message with
            | .ok _ => ([], none)
            | .error e => ([], some e)
        | none =>
            let r := WSConnection.send ctx.env conn
              (errorFrame ("No handler found for message type: " ++ message.type))
              ctx.now
            ([.sent conn.sendTag r.1], r.2)

/-- `handleMessage(connectionId, rawMessage)`: unknown ids return silently;
otherwise run the `try` block, and on a caught error emit the error frame via
`connection.send` — whose own exception, if any, escapes `handleMessage`
(second component of the result). -/
def handleMessage (ctx : HandleCtx) (s : ManagerState) (connectionId : String)
    (raw : String) : List TransportEvent × Option String :=
  match mget s.connections connectionId with
  | none => ([], none)
  | some conn =>
      match handleBody ctx conn raw with
      | (evts, none) => (evts, none)
      | (evts, some e) =>
          let r := WSConnection.send ctx.env conn (errorFrame e) ctx.now
          (evts ++ [.sent conn.sendTag r.1], r.2)

/-! ### The SSE frame encoder (`SSEManager.sendEvent`) -/

/-- `data: string | object`. -/
inductive SSEData where
  | str : String → SSEData
  | structured : Js → SSEData

/-- An `SSEEvent` value. -/
structure SSEEvent where
  id : Option String := none
  event : Option String := none
  data : SSEData
  retry : Option Int := none

/-- The frame string built by `SSEManager.sendEvent`: guards are JS
truthiness (`if (event.id)`, `if (event.event)`, `if (event.retry)`), the
`data` line is unconditional, and the frame ends with one blank line. -/
def sseFrame (e : SSEEvent) : String :=
  (if truthyStr e.id then "id: " ++ e.id.getD "" ++ "\n" else "") ++
  (if truthyStr e.event then "event: " ++ e.event.getD "" ++ "\n" else "") ++
  ("data: " ++
    (match e.data with
     | .str s => s
     | .structured v => Js.stringify v) ++ "\n") ++
  (if truthyInt e.retry then "retry: " ++ toString (e.retry.getD 0) ++ "\n" else "") ++
  "\n"

/-- The frame layout as the specification words it: each optional line is
emitted whenever the field is *present*, regardless of its value. -/
def sseFrameSpec (e : SSEEvent) : String :=
  (match e.id with | some i => "id: " ++ i ++ "\n" | none => "") ++
  (match e.event with | some ev => "event: " ++ ev ++ "\n" | none => "") ++
  ("data: " ++
    (match e.data with
     | .str s => s
     | .structured v => Js.stringify v) ++ "\n") ++
  (match e.retry with | some r => "retry: " ++ toString r ++ "\n" | none => "") ++
  "\n"

/-! ### Sequences of registry operations -/

/-- One registry mutation: an `addConnection` call (with its transport tags)
or a `removeConnection` call. -/
inductive Op where
  | add : String → Nat → Nat → Option String → Option String → Op
  | remove : String → Op
deriving DecidableEq

/-- Apply one operation; a rejected admission throws before mutating, so it
leaves the state as-is. -/
def applyOp (opts : ManagerOptions) (s : ManagerState) : Op → ManagerState
  | .add id st ct userId channel =>
      match addConnection opts s id st ct userId channel with
      | .ok (s', _) => s'
      | .error _ => s
  | .remove id => removeConnection s id

/-- Run a sequence of operations left to right. -/
def runOps (opts : ManagerOptions) (s : ManagerState) : List Op → ManagerState
  | [] => s
  | op :: ops => runOps opts (applyOp opts s op) ops

/-- A run is fresh when every `add` uses an id not registered at that point
(the source never rejects duplicates, so this is a restriction on callers). -/
def freshRun (opts : ManagerOptions) (s : ManagerState) : List Op → Bool
  | [] => true
  | Op.add id st ct u ch :: ops =>
      (mget s.connections id).isNone &&
        freshRun opts (applyOp opts s (Op.add id st ct u ch)) ops
  | Op.remove id :: ops => freshRun opts (applyOp opts s (Op.remove id)) ops

/-! ### Lemmas about the JS map and set model -/

theorem mget_mset_self {β : Type} (m : List (String × β)) (k : String) (v : β) :
    mget (mset m k v) k = some v := by
  induction m with
  | nil => simp [mset, mget]
  | cons p rest ih =>
      obtain ⟨k', v'⟩ := p
      by_cases h : k' = k
      · simp [mset, h, mget]
      · simp [mset, h, mget, ih]

theorem mget_mset_ne {β : Type} (m : List (String × β)) {k₁ k₂ : String}
    (v : β) (h : k₂ ≠ k₁) : mget (mset m k₁ v) k₂ = mget m k₂ := by
  induction m with
  | nil => simp [mset, mget, Ne.symm h]
  | cons p rest ih =>
      obtain ⟨k', v'⟩ := p
      by_cases h1 : k' = k₁
      · subst h1; simp [mset, mget, Ne.symm h]
      · simp [mset, mget, h1, ih]

theorem mem_keys_mset {β : Type} (m : List (String × β)) (k a : String) (v : β) :
    a ∈ (mset m k v).map Prod.fst ↔ a ∈ m.map Prod.fst ∨ a = k := by
  induction m with
  | nil => simp [mset]
  | cons p rest ih =>
      obtain ⟨k', v'⟩ := p
      by_cases h : k' = k
      · subst h; simp [mset]; tauto
      · simp [mset, h, ih]; tauto

theorem keys_mset_nodup {β : Type} (m : List (String × β)) (k : String) (v : β)
    (h : (m.map Prod.fst).Nodup) : ((mset m k v).map Prod.fst).Nodup := by
  induction m with
  | nil => simp [mset]
  | cons p rest ih =>
      obtain ⟨k', v'⟩ := p
      rw [List.map_cons, List.nodup_cons] at h
      by_cases hk : k' = k
      · subst hk
        have e : mset ((k', v') :: rest) k' v = (k', v) :: rest := by simp [mset]
        rw [e, List.map_cons, List.nodup_cons]
        exact h
      · have e : mset ((k', v') :: rest) k v = (k', v') :: mset rest k v := by
          simp [mset, hk]
        rw [e, List.map_cons, List.nodup_cons]
        refine ⟨?_, ih h.2⟩
        intro hmem
        rcases (mem_keys_mset rest k k' v).mp hmem with h1 | h1
        · exact h.1 h1
        · exact hk h1

theorem mget_eq_none_of_not_mem_keys {β : Type} {m : List (String × β)}
    {k : String} (h : k ∉ m.map Prod.fst) : mget m k = none := by
  induction m with
  | nil => rfl
  | cons p rest ih =>
      obtain ⟨k', v'⟩ := p
      rw [List.map_cons, List.mem_cons] at h
      push_neg at h
      have e : mget ((k', v') :: rest) k = if k' = k then some v' else mget rest k := rfl
      rw [e, if_neg (fun hh => h.1 hh.symm)]
      exact ih h.2

theorem mem_of_mget {β : Type} {m : List (String × β)} {k : String} {v : β}
    (h : mget m k = some v) : (k, v) ∈ m := by
  induction m with
  | nil => simp [mget] at h
  | cons p rest ih =>
      obtain ⟨k', v'⟩ := p
      by_cases hk : k' = k
      · subst hk
        simp [mget] at h
        simp [h]
      · simp [mget, hk] at h
        simp [ih h]

theorem mdelete_sublist {β : Type} (m : List (String × β)) (k : String) :
    (mdelete m k).Sublist m := by
  induction m with
  | nil => simp [mdelete]
  | cons p rest ih =>
      obtain ⟨k', v'⟩ := p
      by_cases h : k' = k
      · simp [mdelete, h]
      · simpa [mdelete, h] using ih.cons₂ (k', v')

theorem keys_mdelete_nodup {β : Type} (m : List (String × β)) (k : String)
    (h : (m.map Prod.fst).Nodup) : ((mdelete m k).map Prod.fst).Nodup :=
  ((mdelete_sublist m k).map Prod.fst).nodup h

theorem mget_mdelete_self {β : Type} {m : List (String × β)} {k : String}
    (h : (m.map Prod.fst).Nodup) : mget (mdelete m k) k = none := by
  induction m with
  | nil => rfl
  | cons p rest ih =>
      obtain ⟨k', v'⟩ := p
      simp at h
      by_cases hk : k' = k
      · subst hk
        have e : mdelete ((k', v') :: rest) k' = rest := by simp [mdelete]
        rw [e]
        exact mget_eq_none_of_not_mem_keys (by simpa using h.1)
      · have e : mdelete ((k', v') :: rest) k = (k', v') :: mdelete rest k := by
          simp [mdelete, hk]
        rw [e]
        have e2 : mget ((k', v') :: mdelete rest k) k
            = if k' = k then some v' else mget (mdelete rest k) k := rfl
        rw [e2, if_neg hk]
        exact ih h.2

theorem mget_mdelete_ne {β : Type} (m : List (String × β)) {k₁ k₂ : String}
    (h : k₂ ≠ k₁) : mget (mdelete m k₁) k₂ = mget m k₂ := by
  induction m with
  | nil => rfl
  | cons p rest ih =>
      obtain ⟨k', v'⟩ := p
      by_cases h1 : k' = k₁
      · subst h1; simp [mdelete, mget, Ne.symm h]
      · simp [mdelete, mget, h1, ih]

theorem mem_sadd {s : List String} {x a : String} :
    a ∈ sadd s x ↔ a ∈ s ∨ a = x := by
  by_cases h : x ∈ s
  · simp only [sadd, if_pos h]
    constructor
    · exact Or.inl
    · rintro (ha | rfl) <;> [exact ha; exact h]
  · simp [sadd, h]

theorem sadd_nodup {s : List String} {x : String} (h : s.Nodup) :
    (sadd s x).Nodup := by
  by_cases hx : x ∈ s
  · simpa [sadd, hx] using h
  · rw [sadd, if_neg hx, List.nodup_append]
    refine ⟨h, List.nodup_singleton x, ?_⟩
    intro a ha hax
    rw [List.mem_singleton] at hax
    exact hx (hax ▸ ha)

theorem sadd_ne_nil (s : List String) (x : String) : sadd s x ≠ [] := by
  by_cases hx : x ∈ s
  · simp only [sadd, if_pos hx]
    rintro rfl
    simp at hx
  · simp [sadd, hx]

theorem length_sadd_of_not_mem {s : List String} {x : String} (h : x ∉ s) :
    (sadd s x).length = s.length + 1 := by
  simp [sadd, h]

theorem mget_indexAdd_self (m : List (String × List String)) (k x : String) :
    mget (indexAdd m k x) k = some (sadd ((mget m k).getD []) x) := by
  cases h : mget m k <;> simp [indexAdd, h, mget_mset_self]

theorem mget_indexAdd_ne (m : List (String × List String)) {k k₂ : String}
    (x : String) (h : k₂ ≠ k) : mget (indexAdd m k x) k₂ = mget m k₂ := by
  cases hm : mget m k <;> simp [indexAdd, hm, mget_mset_ne _ _ h]

theorem keys_indexAdd_nodup (m : List (String × List String)) (k x : String)
    (h : (m.map Prod.fst).Nodup) : ((indexAdd m k x).map Prod.fst).Nodup := by
  cases hm : mget m k <;> simp [indexAdd, hm, keys_mset_nodup _ _ _ h]

theorem mget_indexRemove_ne (m : List (String × List String)) {k k₂ : String}
    (x : String) (h : k₂ ≠ k) : mget (indexRemove m k x) k₂ = mget m k₂ := by
  cases hm : mget m k with
  | none => simp [indexRemove, hm]
  | some conns =>
      by_cases he : sdelete conns x = []
      · simp [indexRemove, hm, he, mget_mdelete_ne _ h]
      · simp [indexRemove, hm, he, mget_mset_ne _ _ h]

theorem keys_indexRemove_nodup (m : List (String × List String)) (k x : String)
    (h : (m.map Prod.fst).Nodup) :
    ((indexRemove m k x).map Prod.fst).Nodup := by
  cases hm : mget m k with
  | none => simpa [indexRemove, hm] using h
  | some conns =>
      by_cases he : sdelete conns x = []
      · simp [indexRemove, hm, he, keys_mdelete_nodup _ _ h]
      · simp [indexRemove, hm, he, keys_mset_nodup _ _ _ h]

/-! ### Registry invariants -/

theorem truthyStr_iff {o : Option String} :
    truthyStr o = true ↔ ∃ u, o = some u ∧ u ≠ "" := by
  cases o <;> simp [truthyStr]

/-- The registry invariant: the spec's §3 invariants 1–5 (index agreement in
both directions, no empty index sets, the per-user quota bound) together with
the structural well-formedness the maps enjoy by construction (unique keys,
duplicate-free sets, records keyed by their own id, truthy index keys). -/
structure Invariant (opts : ManagerOptions) (s : ManagerState) : Prop where
  connKeysNodup : (s.connections.map Prod.fst).Nodup
  userKeysNodup : (s.userConnections.map Prod.fst).Nodup
  chanKeysNodup : (s.channelConnections.map Prod.fst).Nodup
  connIdEq : ∀ id conn, mget s.connections id = some conn → conn.id = id
  userSetsNodup : ∀ u ids, mget s.userConnections u = some ids → ids.Nodup
  chanSetsNodup : ∀ ch ids, mget s.channelConnections ch = some ids → ids.Nodup
  userSetsNonempty : ∀ u ids, mget s.userConnections u = some ids → ids ≠ []
  chanSetsNonempty : ∀ ch ids, mget s.channelConnections ch = some ids → ids ≠ []
  userKeyTruthy : ∀ u ids, mget s.userConnections u = some ids → u ≠ ""
  chanKeyTruthy : ∀ ch ids, mget s.channelConnections ch = some ids → ch ≠ ""
  userMatch : ∀ u ids, mget s.userConnections u = some ids → ∀ id ∈ ids,
      ∃ conn, mget s.connections id = some conn ∧ conn.userId = some u
  chanMatch : ∀ ch ids, mget s.channelConnections ch = some ids → ∀ id ∈ ids,
      ∃ conn, mget s.connections id = some conn ∧ conn.channel = some ch
  userContained : ∀ id conn, mget s.connections id = some conn →
      truthyStr conn.userId = true →
      ∃ ids, mget s.userConnections (conn.userId.getD "") = some ids ∧ id ∈ ids
  chanContained : ∀ id conn, mget s.connections id = some conn →
      truthyStr conn.channel = true →
      ∃ ids, mget s.channelConnections (conn.channel.getD "") = some ids ∧ id ∈ ids
  userQuota : ∀ u ids, mget s.userConnections u = some ids →
      ids.length ≤ opts.maxConnectionsPerUser

theorem invariant_initial (opts : ManagerOptions) : Invariant opts initialState := by
  constructor <;> simp [initialState, mget]

theorem addConnection_ok_iff {opts : ManagerOptions} {s : ManagerState}
    {cid : String} {st ct : Nat} {userId channel : Option String}
    {s' : ManagerState} {conn : WSConnection} :
    addConnection opts s cid st ct userId channel = .ok (s', conn) ↔
      quotaRejected opts s userId = false ∧
      conn = ⟨cid, userId, channel, st, ct⟩ ∧
      s' = { connections := mset s.connections cid ⟨cid, userId, channel, st, ct⟩,
             userConnections :=
               if truthyStr userId then
                 indexAdd s.userConnections (userId.getD "") cid
               else s.userConnections,
             channelConnections :=
               if truthyStr channel then
                 indexAdd s.channelConnections (channel.getD "") cid
               else s.channelConnections } := by
  unfold addConnection
  by_cases hq : quotaRejected opts s userId
  · simp [hq]
  · by_cases ht : truthyStr userId <;> by_cases htc : truthyStr channel <;>
      simp [hq, ht, htc, and_comm, eq_comm]

theorem addConnection_error_iff {opts : ManagerOptions} {s : ManagerState}
    {cid : String} {st ct : Nat} {userId channel : Option String}
    {e : AddError} :
    addConnection opts s cid st ct userId channel = .error e ↔
      quotaRejected opts s userId = true ∧
      e = .quotaExceeded opts.maxConnectionsPerUser (userId.getD "") := by
  unfold addConnection
  by_cases hq : quotaRejected opts s userId
  · rw [if_pos hq, Except.error.injEq]
    constructor
    · intro h
      exact ⟨hq, h.symm⟩
    · intro h
      exact h.2.symm
  · constructor
    · intro h
      rw [if_neg hq] at h
      simp at h
    · intro h
      exact absurd h.1 hq

theorem removeConnection_not_found {s : ManagerState} {cid : String}
    (h : mget s.connections cid = none) : removeConnection s cid = s := by
  simp [removeConnection, h]

theorem removeConnection_found {s : ManagerState} {cid : String}
    {conn : WSConnection} (h : mget s.connections cid = some conn) :
    removeConnection s cid =
      { connections := mdelete s.connections cid,
        userConnections :=
          if truthyStr conn.userId then
            indexRemove s.userConnections (conn.userId.getD "") cid
          else s.userConnections,
        channelConnections :=
          if truthyStr conn.channel then
            indexRemove s.channelConnections (conn.channel.getD "") cid
          else s.channelConnections } := by
  by_cases ht : truthyStr conn.userId <;> by_cases htc : truthyStr conn.channel <;>
    simp [removeConnection, h, ht, htc]

theorem invariant_addConnection {opts : ManagerOptions} {s : ManagerState}
    {cid : String} {st ct : Nat} {userId channel : Option String}
    {s' : ManagerState} {conn : WSConnection}
    (hinv : Invariant opts s) (hfresh : mget s.connections cid = none)
    (hok : addConnection opts s cid st ct userId channel = .ok (s', conn)) :
    Invariant opts s' := by
  rw [addConnection_ok_iff] at hok
  obtain ⟨hq, rfl, rfl⟩ := hok
  have hNoUser : ∀ u ids, mget s.userConnections u = some ids → cid ∉ ids := by
    intro u ids hm hmem
    obtain ⟨c, hc, _⟩ := hinv.userMatch u ids hm cid hmem
    rw [hfresh] at hc
    exact Option.noConfusion hc
  have hNoChan : ∀ ch ids, mget s.channelConnections ch = some ids → cid ∉ ids := by
    intro ch ids hm hmem
    obtain ⟨c, hc, _⟩ := hinv.chanMatch ch ids hm cid hmem
    rw [hfresh] at hc
    exact Option.noConfusion hc
  refine ⟨?_, ?_, ?_, ?_, ?_, ?_, ?_, ?_, ?_, ?_, ?_, ?_, ?_, ?_, ?_⟩ <;> dsimp only
  · exact keys_mset_nodup _ _ _ hinv.connKeysNodup
  · by_cases ht : truthyStr userId = true
    · rw [if_pos ht]
      exact keys_indexAdd_nodup _ _ _ hinv.userKeysNodup
    · rw [if_neg ht]
      exact hinv.userKeysNodup
  · by_cases ht : truthyStr channel = true
    · rw [if_pos ht]
      exact keys_indexAdd_nodup _ _ _ hinv.chanKeysNodup
    · rw [if_neg ht]
      exact hinv.chanKeysNodup
  · intro id c h
    by_cases hid : id = cid
    · subst hid
      rw [mget_mset_self] at h
      injection h with h
      subst h
      rfl
    · rw [mget_mset_ne _ _ hid] at h
      exact hinv.connIdEq id c h
  · intro u ids hm
    by_cases ht : truthyStr userId = true
    · rw [if_pos ht] at hm
      by_cases hu : u = userId.getD ""
      · subst hu
        rw [mget_indexAdd_self] at hm
        injection hm with hm
        subst hm
        cases hp : mget s.userConnections (userId.getD "") with
        | none => simp [sadd]
        | some p => exact sadd_nodup (hinv.userSetsNodup _ p hp)
      · rw [mget_indexAdd_ne _ _ hu] at hm
        exact hinv.userSetsNodup _ _ hm
    · rw [if_neg ht] at hm
      exact hinv.userSetsNodup _ _ hm
  · intro ch ids hm
    by_cases ht : truthyStr channel = true
    · rw [if_pos ht] at hm
      by_cases hu : ch = channel.getD ""
      · subst hu
        rw [mget_indexAdd_self] at hm
        injection hm with hm
        subst hm
        cases hp : mget s.channelConnections (channel.getD "") with
        | none => simp [sadd]
        | some p => exact sadd_nodup (hinv.chanSetsNodup _ p hp)
      · rw [mget_indexAdd_ne _ _ hu] at hm
        exact hinv.chanSetsNodup _ _ hm
    · rw [if_neg ht] at hm
      exact hinv.chanSetsNodup _ _ hm
  · intro u ids hm
    by_cases ht : truthyStr userId = true
    · rw [if_pos ht] at hm
      by_cases hu : u = userId.getD ""
      · subst hu
        rw [mget_indexAdd_self] at hm
        injection hm with hm
        subst hm
        exact sadd_ne_nil _ _
      · rw [mget_indexAdd_ne _ _ hu] at hm
        exact hinv.userSetsNonempty _ _ hm
    · rw [if_neg ht] at hm
      exact hinv.userSetsNonempty _ _ hm
  · intro ch ids hm
    by_cases ht : truthyStr channel = true
    · rw [if_pos ht] at hm
      by_cases hu : ch = channel.getD ""
      · subst hu
        rw [mget_indexAdd_self] at hm
        injection hm with hm
        subst hm
        exact sadd_ne_nil _ _
      · rw [mget_indexAdd_ne _ _ hu] at hm
        exact hinv.chanSetsNonempty _ _ hm
    · rw [if_neg ht] at hm
      exact hinv.chanSetsNonempty _ _ hm
  · intro u ids hm
    by_cases ht : truthyStr userId = true
    · rw [if_pos ht] at hm
      by_cases hu : u = userId.getD ""
      · subst hu
        obtain ⟨w, hw, hwne⟩ := truthyStr_iff.mp ht
        rw [hw]
        simpa using hwne
      · rw [mget_indexAdd_ne _ _ hu] at hm
        exact hinv.userKeyTruthy _ _ hm
    · rw [if_neg ht] at hm
      exact hinv.userKeyTruthy _ _ hm
  · intro ch ids hm
    by_cases ht : truthyStr channel = true
    · rw [if_pos ht] at hm
      by_cases hu : ch = channel.getD ""
      · subst hu
        obtain ⟨w, hw, hwne⟩ := truthyStr_iff.mp ht
        rw [hw]
        simpa using hwne
      · rw [mget_indexAdd_ne _ _ hu] at hm
        exact hinv.chanKeyTruthy _ _ hm
    · rw [if_neg ht] at hm
      exact hinv.chanKeyTruthy _ _ hm
  · intro u ids hm id hid
    by_cases ht : truthyStr userId = true
    · rw [if_pos ht] at hm
      obtain ⟨w, hw, hwne⟩ := truthyStr_iff.mp ht
      by_cases hu : u = userId.getD ""
      · subst hu
        rw [mget_indexAdd_self] at hm
        injection hm with hm
        subst hm
        rcases mem_sadd.mp hid with hmem | rfl
        · cases hp : mget s.userConnections (userId.getD "") with
          | none =>
              rw [hp] at hmem
              simp at hmem
          | some p =>
              rw [hp] at hmem
              obtain ⟨c, hc, hcu⟩ := hinv.userMatch _ p hp id (by simpa using hmem)
              have hne : id ≠ cid := by
                rintro rfl
                rw [hfresh] at hc
                exact Option.noConfusion hc
              exact ⟨c, by rw [mget_mset_ne _ _ hne]; exact hc, hcu⟩
        · refine ⟨⟨id, userId, channel, st, ct⟩, mget_mset_self _ _ _, ?_⟩
          rw [hw]
          simp
      · rw [mget_indexAdd_ne _ _ hu] at hm
        obtain ⟨c, hc, hcu⟩ := hinv.userMatch u ids hm id hid
        have hne : id ≠ cid := by
          rintro rfl
          rw [hfresh] at hc
          exact Option.noConfusion hc
        exact ⟨c, by rw [mget_mset_ne _ _ hne]; exact hc, hcu⟩
    · rw [if_neg ht] at hm
      obtain ⟨c, hc, hcu⟩ := hinv.userMatch u ids hm id hid
      have hne : id ≠ cid := by
        rintro rfl
        rw [hfresh] at hc
        exact Option.noConfusion hc
      exact ⟨c, by rw [mget_mset_ne _ _ hne]; exact hc, hcu⟩
  · intro ch ids hm id hid
    by_cases ht : truthyStr channel = true
    · rw [if_pos ht] at hm
      obtain ⟨w, hw, hwne⟩ := truthyStr_iff.mp ht
      by_cases hu : ch = channel.getD ""
      · subst hu
        rw [mget_indexAdd_self] at hm
        injection hm with hm
        subst hm
        rcases mem_sadd.mp hid with hmem | rfl
        · cases hp : mget s.channelConnections (channel.getD "") with
          | none =>
              rw [hp] at hmem
              simp at hmem
          | some p =>
              rw [hp] at hmem
              obtain ⟨c, hc, hcu⟩ := hinv.chanMatch _ p hp id (by simpa using hmem)
              have hne : id ≠ cid := by
                rintro rfl
                rw [hfresh] at hc
                exact Option.noConfusion hc
              exact ⟨c, by rw [mget_mset_ne _ _ hne]; exact hc, hcu⟩
        · refine ⟨⟨id, userId, channel, st, ct⟩, mget_mset_self _ _ _, ?_⟩
          rw [hw]
          simp
      · rw [mget_indexAdd_ne _ _ hu] at hm
        obtain ⟨c, hc, hcu⟩ := hinv.chanMatch ch ids hm id hid
        have hne : id ≠ cid := by
          rintro rfl
          rw [hfresh] at hc
          exact Option.noConfusion hc
        exact ⟨c, by rw [mget_mset_ne _ _ hne]; exact hc, hcu⟩
    · rw [if_neg ht] at hm
      obtain ⟨c, hc, hcu⟩ := hinv.chanMatch ch ids hm id hid
      have hne : id ≠ cid := by
        rintro rfl
        rw [hfresh] at hc
        exact Option.noConfusion hc
      exact ⟨c, by rw [mget_mset_ne _ _ hne]; exact hc, hcu⟩
  · intro id c hc htc2
    by_cases hid : id = cid
    · subst hid
      rw [mget_mset_self] at hc
      injection hc with hc
      subst hc
      have ht : truthyStr userId = true := htc2
      rw [if_pos ht]
      rw [mget_indexAdd_self]
      exact ⟨_, rfl, mem_sadd.mpr (Or.inr rfl)⟩
    · rw [mget_mset_ne _ _ hid] at hc
      obtain ⟨ids, hm, hmem⟩ := hinv.userContained id c hc htc2
      by_cases ht : truthyStr userId = true
      · rw [if_pos ht]
        by_cases hu : c.userId.getD "" = userId.getD ""
        · rw [hu, mget_indexAdd_self]
          refine ⟨_, rfl, ?_⟩
          rw [hu] at hm
          rw [hm]
          exact mem_sadd.mpr (Or.inl hmem)
        · rw [mget_indexAdd_ne _ _ hu]
          exact ⟨ids, hm, hmem⟩
      · rw [if_neg ht]
        exact ⟨ids, hm, hmem⟩
  · intro id c hc htc2
    by_cases hid : id = cid
    · subst hid
      rw [mget_mset_self] at hc
      injection hc with hc
      subst hc
      have ht : truthyStr channel = true := htc2
      rw [if_pos ht]
      rw [mget_indexAdd_self]
      exact ⟨_, rfl, mem_sadd.mpr (Or.inr rfl)⟩
    · rw [mget_mset_ne _ _ hid] at hc
      obtain ⟨ids, hm, hmem⟩ := hinv.chanContained id c hc htc2
      by_cases ht : truthyStr channel = true
      · rw [if_pos ht]
        by_cases hu : c.channel.getD "" = channel.getD ""
        · rw [hu, mget_indexAdd_self]
          refine ⟨_, rfl, ?_⟩
          rw [hu] at hm
          rw [hm]
          exact mem_sadd.mpr (Or.inl hmem)
        · rw [mget_indexAdd_ne _ _ hu]
          exact ⟨ids, hm, hmem⟩
      · rw [if_neg ht]
        exact ⟨ids, hm, hmem⟩
  · intro u ids hm
    by_cases ht : truthyStr userId = true
    · rw [if_pos ht] at hm
      obtain ⟨w, hw, hwne⟩ := truthyStr_iff.mp ht
      by_cases hu : u = userId.getD ""
      · subst hu
        rw [mget_indexAdd_self] at hm
        injection hm with hm
        subst hm
        have hgd : userId.getD "" = w := by rw [hw]; rfl
        have hcount : getUserConnectionCount s w < opts.maxConnectionsPerUser := by
          rw [hw] at hq
          simp [quotaRejected, hwne] at hq
          omega
        rw [hgd]
        cases hp : mget s.userConnections w with
        | none =>
            have h0 : getUserConnectionCount s w = 0 := by
              simp [getUserConnectionCount, hp]
            show (sadd [] cid).length ≤ opts.maxConnectionsPerUser
            simp [sadd]
            omega
        | some p =>
            have hlen : (sadd p cid).length = p.length + 1 :=
              length_sadd_of_not_mem (hNoUser _ p hp)
            have hcp : getUserConnectionCount s w = p.length := by
              simp [getUserConnectionCount, hp]
            show (sadd p cid).length ≤ opts.maxConnectionsPerUser
            rw [hlen]
            omega
      · rw [mget_indexAdd_ne _ _ hu] at hm
        exact hinv.userQuota _ _ hm
    · rw [if_neg ht] at hm
      exact hinv.userQuota _ _ hm

theorem mget_indexRemove_self (m : List (String × List String)) (k x : String)
    (hkeys : (m.map Prod.fst).Nodup) :
    mget (indexRemove m k x) k =
      match mget m k with
      | none => none
      | some conns =>
          if sdelete conns x = [] then none else some (sdelete conns x) := by
  cases hm : mget m k with
  | none => simp [indexRemove, hm]
  | some conns =>
      by_cases he : sdelete conns x = []
      · simp [indexRemove, hm, he, mget_mdelete_self hkeys]
      · simp [indexRemove, hm, he, mget_mset_self]

theorem mget_mdelete_some {β : Type} {m : List (String × β)} {k id : String}
    {v : β} (hkeys : (m.map Prod.fst).Nodup)
    (h : mget (mdelete m k) id = some v) : id ≠ k ∧ mget m id = some v := by
  by_cases hid : id = k
  · subst hid
    rw [mget_mdelete_self hkeys] at h
    exact Option.noConfusion h
  · rw [mget_mdelete_ne _ hid] at h
    exact ⟨hid, h⟩

theorem invariant_removeConnection {opts : ManagerOptions} {s : ManagerState}
    (cid : String) (hinv : Invariant opts s) :
    Invariant opts (removeConnection s cid) := by
  cases hc : mget s.connections cid with
  | none =>
      rw [removeConnection_not_found hc]
      exact hinv
  | some conn =>
      rw [removeConnection_found hc]
      refine ⟨?_, ?_, ?_, ?_, ?_, ?_, ?_, ?_, ?_, ?_, ?_, ?_, ?_, ?_, ?_⟩ <;> dsimp only
      · exact keys_mdelete_nodup _ _ hinv.connKeysNodup
      · by_cases ht : truthyStr conn.userId = true
        · rw [if_pos ht]
          exact keys_indexRemove_nodup _ _ _ hinv.userKeysNodup
        · rw [if_neg ht]
          exact hinv.userKeysNodup
      · by_cases ht : truthyStr conn.channel = true
        · rw [if_pos ht]
          exact keys_indexRemove_nodup _ _ _ hinv.chanKeysNodup
        · rw [if_neg ht]
          exact hinv.chanKeysNodup
      · intro id c h
        obtain ⟨-, h⟩ := mget_mdelete_some hinv.connKeysNodup h
        exact hinv.connIdEq id c h
      · intro u ids hm
        by_cases ht : truthyStr conn.userId = true
        · rw [if_pos ht] at hm
          by_cases hu : u = conn.userId.getD ""
          · subst hu
            rw [mget_indexRemove_self _ _ _ hinv.userKeysNodup] at hm
            cases hp : mget s.userConnections (conn.userId.getD "") with
            | none => rw [hp] at hm; exact Option.noConfusion hm
            | some p =>
                rw [hp] at hm
                dsimp only at hm
                by_cases he : sdelete p cid = []
                · rw [if_pos he] at hm
                  exact Option.noConfusion hm
                · rw [if_neg he] at hm
                  injection hm with hm
                  subst hm
                  exact (hinv.userSetsNodup _ _ hp).erase _
          · rw [mget_indexRemove_ne _ _ hu] at hm
            exact hinv.userSetsNodup _ _ hm
        · rw [if_neg ht] at hm
          exact hinv.userSetsNodup _ _ hm
      · intro ch ids hm
        by_cases ht : truthyStr conn.channel = true
        · rw [if_pos ht] at hm
          by_cases hu : ch = conn.channel.getD ""
          · subst hu
            rw [mget_indexRemove_self _ _ _ hinv.chanKeysNodup] at hm
            cases hp : mget s.channelConnections (conn.channel.getD "") with
            | none => rw [hp] at hm; exact Option.noConfusion hm
            | some p =>
                rw [hp] at hm
                dsimp only at hm
                by_cases he : sdelete p cid = []
                · rw [if_pos he] at hm
                  exact Option.noConfusion hm
                · rw [if_neg he] at hm
                  injection hm with hm
                  subst hm
                  exact (hinv.chanSetsNodup _ _ hp).erase _
          · rw [mget_indexRemove_ne _ _ hu] at hm
            exact hinv.chanSetsNodup _ _ hm
        · rw [if_neg ht] at hm
          exact hinv.chanSetsNodup _ _ hm
      · intro u ids hm
        by_cases ht : truthyStr conn.userId = true
        · rw [if_pos ht] at hm
          by_cases hu : u = conn.userId.getD ""
          · subst hu
            rw [mget_indexRemove_self _ _ _ hinv.userKeysNodup] at hm
            cases hp : mget s.userConnections (conn.userId.getD "") with
            | none => rw [hp] at hm; exact Option.noConfusion hm
            | some p =>
                rw [hp] at hm
                dsimp only at hm
                by_cases he : sdelete p cid = []
                · rw [if_pos he] at hm
                  exact Option.noConfusion hm
                · rw [if_neg he] at hm
                  injection hm with hm
                  subst hm
                  exact he
          · rw [mget_indexRemove_ne _ _ hu] at hm
            exact hinv.userSetsNonempty _ _ hm
        · rw [if_neg ht] at hm
          exact hinv.userSetsNonempty _ _ hm
      · intro ch ids hm
        by_cases ht : truthyStr conn.channel = true
        · rw [if_pos ht] at hm
          by_cases hu : ch = conn.channel.getD ""
          · subst hu
            rw [mget_indexRemove_self _ _ _ hinv.chanKeysNodup] at hm
            cases hp : mget s.channelConnections (conn.channel.getD "") with
            | none => rw [hp] at hm; exact Option.noConfusion hm
            | some p =>
                rw [hp] at hm
                dsimp only at hm
                by_cases he : sdelete p cid = []
                · rw [if_pos he] at hm
                  exact Option.noConfusion hm
                · rw [if_neg he] at hm
                  injection hm with hm
                  subst hm
                  exact he
          · rw [mget_indexRemove_ne _ _ hu] at hm
            exact hinv.chanSetsNonempty _ _ hm
        · rw [if_neg ht] at hm
          exact hinv.chanSetsNonempty _ _ hm
      · intro u ids hm
        by_cases ht : truthyStr conn.userId = true
        · rw [if_pos ht] at hm
          by_cases hu : u = conn.userId.getD ""
          · subst hu
            rw [mget_indexRemove_self _ _ _ hinv.userKeysNodup] at hm
            cases hp : mget s.userConnections (conn.userId.getD "") with
            | none => rw [hp] at hm; exact Option.noConfusion hm
            | some p => exact hinv.userKeyTruthy _ _ hp
          · rw [mget_indexRemove_ne _ _ hu] at hm
            exact hinv.userKeyTruthy _ _ hm
        · rw [if_neg ht] at hm
          exact hinv.userKeyTruthy _ _ hm
      · intro ch ids hm
        by_cases ht : truthyStr conn.channel = true
        · rw [if_pos ht] at hm
          by_cases hu : ch = conn.channel.getD ""
          · subst hu
            rw [mget_indexRemove_self _ _ _ hinv.chanKeysNodup] at hm
            cases hp : mget s.channelConnections (conn.channel.getD "") with
            | none => rw [hp] at hm; exact Option.noConfusion hm
            | some p => exact hinv.chanKeyTruthy _ _ hp
          · rw [mget_indexRemove_ne _ _ hu] at hm
            exact hinv.chanKeyTruthy _ _ hm
        · rw [if_neg ht] at hm
          exact hinv.chanKeyTruthy _ _ hm
      · intro u ids hm id hid
        have core : ∀ ids₀, mget s.userConnections u = some ids₀ → id ∈ ids₀ →
            id ≠ cid →
            ∃ c, mget (mdelete s.connections cid) id = some c ∧
              c.userId = some u := by
          intro ids₀ hm₀ hid₀ hne
          obtain ⟨c, hcg, hcu⟩ := hinv.userMatch u ids₀ hm₀ id hid₀
          rw [mget_mdelete_ne _ hne]
          exact ⟨c, hcg, hcu⟩
        have hne_of : ∀ ids₀, mget s.userConnections u = some ids₀ → id ∈ ids₀ →
            conn.userId ≠ some u → id ≠ cid := by
          intro ids₀ hm₀ hid₀ hnu
          rintro rfl
          obtain ⟨c, hcg, hcu⟩ := hinv.userMatch u ids₀ hm₀ _ hid₀
          rw [hc] at hcg
          injection hcg with hcg
          subst hcg
          exact hnu hcu
        by_cases ht : truthyStr conn.userId = true
        · rw [if_pos ht] at hm
          by_cases hu : u = conn.userId.getD ""
          · subst hu
            rw [mget_indexRemove_self _ _ _ hinv.userKeysNodup] at hm
            cases hp : mget s.userConnections (conn.userId.getD "") with
            | none => rw [hp] at hm; exact Option.noConfusion hm
            | some p =>
                rw [hp] at hm
                dsimp only at hm
                by_cases he : sdelete p cid = []
                · rw [if_pos he] at hm
                  exact Option.noConfusion hm
                · rw [if_neg he] at hm
                  injection hm with hm
                  subst hm
                  have hpn := hinv.userSetsNodup _ _ hp
                  have hmem := (List.Nodup.mem_erase_iff hpn).mp hid
                  exact core p hp hmem.2 hmem.1
          · rw [mget_indexRemove_ne _ _ hu] at hm
            have hnu : conn.userId ≠ some u := by
              intro he
              apply hu
              rw [he]
              rfl
            exact core ids hm hid (hne_of ids hm hid hnu)
        · rw [if_neg ht] at hm
          have hnu : conn.userId ≠ some u := by
            intro he
            apply ht
            have hune : u ≠ "" := hinv.userKeyTruthy u ids hm
            rw [he]
            simp [truthyStr, hune]
          exact core ids hm hid (hne_of ids hm hid hnu)
      · intro ch ids hm id hid
        have core : ∀ ids₀, mget s.channelConnections ch = some ids₀ → id ∈ ids₀ →
            id ≠ cid →
            ∃ c, mget (mdelete s.connections cid) id = some c ∧
              c.channel = some ch := by
          intro ids₀ hm₀ hid₀ hne
          obtain ⟨c, hcg, hcu⟩ := hinv.chanMatch ch ids₀ hm₀ id hid₀
          rw [mget_mdelete_ne _ hne]
          exact ⟨c, hcg, hcu⟩
        have hne_of : ∀ ids₀, mget s.channelConnections ch = some ids₀ →
            id ∈ ids₀ → conn.channel ≠ some ch → id ≠ cid := by
          intro ids₀ hm₀ hid₀ hnu
          rintro rfl
          obtain ⟨c, hcg, hcu⟩ := hinv.chanMatch ch ids₀ hm₀ _ hid₀
          rw [hc] at hcg
          injection hcg with hcg
          subst hcg
          exact hnu hcu
        by_cases ht : truthyStr conn.channel = true
        · rw [if_pos ht] at hm
          by_cases hu : ch = conn.channel.getD ""
          · subst hu
            rw [mget_indexRemove_self _ _ _ hinv.chanKeysNodup] at hm
            cases hp : mget s.channelConnections (conn.channel.getD "") with
            | none => rw [hp] at hm; exact Option.noConfusion hm
            | some p =>
                rw [hp] at hm
                dsimp only at hm
                by_cases he : sdelete p cid = []
                · rw [if_pos he] at hm
                  exact Option.noConfusion hm
                · rw [if_neg he] at hm
                  injection hm with hm
                  subst hm
                  have hpn := hinv.chanSetsNodup _ _ hp
                  have hmem := (List.Nodup.mem_erase_iff hpn).mp hid
                  exact core p hp hmem.2 hmem.1
          · rw [mget_indexRemove_ne _ _ hu] at hm
            have hnu : conn.channel ≠ some ch := by
              intro he
              apply hu
              rw [he]
              rfl
            exact core ids hm hid (hne_of ids hm hid hnu)
        · rw [if_neg ht] at hm
          have hnu : conn.channel ≠ some ch := by
            intro he
            apply ht
            have hcne : ch ≠ "" := hinv.chanKeyTruthy ch ids hm
            rw [he]
            simp [truthyStr, hcne]
          exact core ids hm hid (hne_of ids hm hid hnu)
      · intro id c hcm ht2
        obtain ⟨hne, hcg⟩ := mget_mdelete_some hinv.connKeysNodup hcm
        obtain ⟨ids, hm, hmem⟩ := hinv.userContained id c hcg ht2
        by_cases ht : truthyStr conn.userId = true
        · rw [if_pos ht]
          by_cases hu : c.userId.getD "" = conn.userId.getD ""
          · rw [hu, mget_indexRemove_self _ _ _ hinv.userKeysNodup]
            rw [hu] at hm
            rw [hm]
            have hidin : id ∈ sdelete ids cid :=
              (List.mem_erase_of_ne hne).mpr hmem
            have hnn : sdelete ids cid ≠ [] := List.ne_nil_of_mem hidin
            refine ⟨sdelete ids cid, ?_, hidin⟩
            show (if sdelete ids cid = [] then none else some (sdelete ids cid))
              = some (sdelete ids cid)
            rw [if_neg hnn]
          · rw [mget_indexRemove_ne _ _ hu]
            exact ⟨ids, hm, hmem⟩
        · rw [if_neg ht]
          exact ⟨ids, hm, hmem⟩
      · intro id c hcm ht2
        obtain ⟨hne, hcg⟩ := mget_mdelete_some hinv.connKeysNodup hcm
        obtain ⟨ids, hm, hmem⟩ := hinv.chanContained id c hcg ht2
        by_cases ht : truthyStr conn.channel = true
        · rw [if_pos ht]
          by_cases hu : c.channel.getD "" = conn.channel.getD ""
          · rw [hu, mget_indexRemove_self _ _ _ hinv.chanKeysNodup]
            rw [hu] at hm
            rw [hm]
            have hidin : id ∈ sdelete ids cid :=
              (List.mem_erase_of_ne hne).mpr hmem
            have hnn : sdelete ids cid ≠ [] := List.ne_nil_of_mem hidin
            refine ⟨sdelete ids cid, ?_, hidin⟩
            show (if sdelete ids cid = [] then none else some (sdelete ids cid))
              = some (sdelete ids cid)
            rw [if_neg hnn]
          · rw [mget_indexRemove_ne _ _ hu]
            exact ⟨ids, hm, hmem⟩
        · rw [if_neg ht]
          exact ⟨ids, hm, hmem⟩
      · intro u ids hm
        by_cases ht : truthyStr conn.userId = true
        · rw [if_pos ht] at hm
          by_cases hu : u = conn.userId.getD ""
          · subst hu
            rw [mget_indexRemove_self _ _ _ hinv.userKeysNodup] at hm
            cases hp : mget s.userConnections (conn.userId.getD "") with
            | none => rw [hp] at hm; exact Option.noConfusion hm
            | some p =>
                rw [hp] at hm
                dsimp only at hm
                by_cases he : sdelete p cid = []
                · rw [if_pos he] at hm
                  exact Option.noConfusion hm
                · rw [if_neg he] at hm
                  injection hm with hm
                  subst hm
                  exact le_trans (List.Sublist.length_le (List.erase_sublist _ _))
                    (hinv.userQuota _ _ hp)
          · rw [mget_indexRemove_ne _ _ hu] at hm
            exact hinv.userQuota _ _ hm
        · rw [if_neg ht] at hm
          exact hinv.userQuota _ _ hm

theorem invariant_runOps (opts : ManagerOptions) (ops : List Op) :
    ∀ s, Invariant opts s → freshRun opts s ops = true →
      Invariant opts (runOps opts s ops) := by
  induction ops with
  | nil =>
      intro s h _
      exact h
  | cons op rest ih =>
      intro s h hf
      rw [runOps]
      cases op with
      | add id st ct u ch =>
          rw [freshRun, Bool.and_eq_true] at hf
          obtain ⟨h1, h2⟩ := hf
          refine ih (applyOp opts s (Op.add id st ct u ch)) ?_ h2
          have hfresh : mget s.connections id = none :=
            Option.isNone_iff_eq_none.mp h1
          cases hr : addConnection opts s id st ct u ch with
          | ok r =>
              obtain ⟨s', c⟩ := r
              simpa [applyOp, hr] using invariant_addConnection h hfresh hr
          | error e =>
              simpa [applyOp, hr] using h
      | remove id =>
          rw [freshRun] at hf
          refine ih (applyOp opts s (Op.remove id)) ?_ hf
          exact invariant_removeConnection id h

/-! ### C1 -/

/-- C1 counterexample: the source has no duplicate-id check, so running
`addConnection("a", …, userId := "u1")` and then `addConnection("a", …,
userId := "u2")` silently replaces the record while `"a"` stays in
`byUser["u1"]`; the spec's invariant 2 ("every id in any `byUser[u]` is a key
in `connections` whose userId matches") is violated in the resulting state. -/
theorem registry_invariants_fail_on_duplicate_add :
    ¬ (∀ u ids,
        mget (runOps {} initialState
          [Op.add "a" 0 0 (some "u1") none,
           Op.add "a" 1 1 (some "u2") none]).userConnections u = some ids →
        ∀ id ∈ ids,
          ∃ c, mget (runOps {} initialState
            [Op.add "a" 0 0 (some "u1") none,
             Op.add "a" 1 1 (some "u2") none]).connections id = some c ∧
          c.userId = some u) := by
  intro h
  have h1 := h "u1" ["a"] rfl "a" (by simp)
  obtain ⟨c, hc, hcu⟩ := h1
  have he : mget (runOps {} initialState
      [Op.add "a" 0 0 (some "u1") none,
       Op.add "a" 1 1 (some "u2") none]).connections "a"
      = some ⟨"a", some "u2", none, 1, 1⟩ := rfl
  rw [he] at hc
  injection hc with hc
  subst hc
  exact absurd hcu (by decide)

/-- C1 (amended): for every finite sequence of interleaved `addConnection`
and `removeConnection` calls in which each `addConnection` uses an id not
registered at that moment (rejected admissions leave the state as-is), the
resulting registry state satisfies the spec's §3 index invariants: both index
directions agree, no index set is empty, and every user's set is bounded by
`maxConnectionsPerUser`. -/
theorem registry_invariants_hold_for_fresh_runs (opts : ManagerOptions)
    (ops : List Op) (hf : freshRun opts initialState ops = true) :
    Invariant opts (runOps opts initialState ops) :=
  invariant_runOps opts ops initialState (invariant_initial opts) hf

/-- Witness for C1's theorem at a concrete fresh run. -/
theorem registry_invariants_hold_for_fresh_runs_witness :
    freshRun {} initialState
      [Op.add "a" 0 0 (some "u1") none,
       Op.add "b" 1 1 (some "u1") (some "x"),
       Op.remove "a"] = true ∧
    Invariant {} (runOps {} initialState
      [Op.add "a" 0 0 (some "u1") none,
       Op.add "b" 1 1 (some "u1") (some "x"),
       Op.remove "a"]) :=
  ⟨by decide,
   registry_invariants_hold_for_fresh_runs {}
     [Op.add "a" 0 0 (some "u1") none,
      Op.add "b" 1 1 (some "u1") (some "x"),
      Op.remove "a"] (by decide)⟩

/-! ### C2 -/

/-- C2 counterexample: `addConnection` has no duplicate-id check.  With
`"a"` already registered for `"u1"`, a second `addConnection("a", …, "u2")`
does not fail: it returns a fresh record, overwrites the stored record, and
adds `"a"` under `"u2"` while `"a"` stays indexed under `"u1"` — the state
changes and no error is surfaced. -/
theorem addConnection_duplicate_succeeds_and_mutates :
    addConnection {}
        { connections := [("a", ⟨"a", some "u1", none, 0, 0⟩)],
          userConnections := [("u1", ["a"])],
          channelConnections := [] } "a" 1 1 (some "u2") none
      = .ok ({ connections := [("a", ⟨"a", some "u2", none, 1, 1⟩)],
               userConnections := [("u1", ["a"]), ("u2", ["a"])],
               channelConnections := [] }, ⟨"a", some "u2", none, 1, 1⟩) ∧
    ({ connections := [("a", ⟨"a", some "u2", none, 1, 1⟩)],
       userConnections := [("u1", ["a"]), ("u2", ["a"])],
       channelConnections := [] } : ManagerState) ≠
      { connections := [("a", ⟨"a", some "u1", none, 0, 0⟩)],
        userConnections := [("u1", ["a"])],
        channelConnections := [] } := by
  constructor
  · rfl
  · decide

/-- C2 (amended): `addConnection` with an already-registered id raises no
error (there is no duplicate-id check).  Unless the quota guard rejects the
new `userId`, the call succeeds, the stored record for the id is replaced by
the new one, and index entries under any other key are left untouched (in
particular the id's stale entry under its old user stays behind). -/
theorem addConnection_duplicate_id_replaces (opts : ManagerOptions)
    (s : ManagerState) (cid : String) (st ct : Nat)
    (userId channel : Option String) (conn0 : WSConnection) (u0 : String)
    (ids0 : List String)
    (_hdup : mget s.connections cid = some conn0)
    (hq : quotaRejected opts s userId = false)
    (hu0 : u0 ≠ userId.getD "")
    (hm0 : mget s.userConnections u0 = some ids0) :
    ∃ s', addConnection opts s cid st ct userId channel
        = .ok (s', ⟨cid, userId, channel, st, ct⟩) ∧
      mget s'.connections cid = some ⟨cid, userId, channel, st, ct⟩ ∧
      mget s'.userConnections u0 = some ids0 := by
  refine ⟨_, addConnection_ok_iff.mpr ⟨hq, rfl, rfl⟩, ?_, ?_⟩
  · exact mget_mset_self _ _ _
  · dsimp only
    by_cases ht : truthyStr userId = true
    · rw [if_pos ht, mget_indexAdd_ne _ _ hu0]
      exact hm0
    · rw [if_neg ht]
      exact hm0

/-- Witness for C2's amended theorem: with `"a"` registered for `"u1"`, a
duplicate add for `"u2"` replaces the record and leaves `byUser["u1"]`
untouched. -/
theorem addConnection_duplicate_id_replaces_witness :
    mget ({ connections := [("a", ⟨"a", some "u1", none, 0, 0⟩)],
            userConnections := [("u1", ["a"])],
            channelConnections := [] } : ManagerState).connections "a"
        = some ⟨"a", some "u1", none, 0, 0⟩ ∧
    quotaRejected {}
        { connections := [("a", ⟨"a", some "u1", none, 0, 0⟩)],
          userConnections := [("u1", ["a"])],
          channelConnections := [] } (some "u2") = false ∧
    "u1" ≠ (some "u2" : Option String).getD "" ∧
    mget ({ connections := [("a", ⟨"a", some "u1", none, 0, 0⟩)],
            userConnections := [("u1", ["a"])],
            channelConnections := [] } : ManagerState).userConnections "u1"
        = some ["a"] ∧
    ∃ s', addConnection {}
        { connections := [("a", ⟨"a", some "u1", none, 0, 0⟩)],
          userConnections := [("u1", ["a"])],
          channelConnections := [] } "a" 1 1 (some "u2") none
        = .ok (s', ⟨"a", some "u2", none, 1, 1⟩) ∧
      mget s'.connections "a" = some ⟨"a", some "u2", none, 1, 1⟩ ∧
      mget s'.userConnections "u1" = some ["a"] :=
  ⟨by decide, by decide, by decide, by decide,
   addConnection_duplicate_id_replaces {} _ "a" 1 1 (some "u2") none
     ⟨"a", some "u1", none, 0, 0⟩ "u1" ["a"]
     (by decide) (by decide) (by decide) (by decide)⟩

/-! ### C7 -/

/-- C7: with a truthy userId, `addConnection` accepts exactly while the
user's connection count is below `maxConnectionsPerUser`; the call that
brings the count to exactly the quota succeeds, and the very next call for
the same user fails with the quota error (the source throws before any
mutation, so `applyOp` leaves the state unchanged on rejection). -/
theorem addConnection_quota_boundary (opts : ManagerOptions) (s : ManagerState)
    (u : String) (hu : u ≠ "") :
    (∀ cid st ct ch, (addConnection opts s cid st ct (some u) ch).isOk
        = decide (getUserConnectionCount s u < opts.maxConnectionsPerUser)) ∧
    (∀ cid st ct ch,
      getUserConnectionCount s u + 1 = opts.maxConnectionsPerUser →
      (∀ ids, mget s.userConnections u = some ids → cid ∉ ids) →
      ∃ s' c, addConnection opts s cid st ct (some u) ch = .ok (s', c) ∧
        getUserConnectionCount s' u = opts.maxConnectionsPerUser ∧
        ∀ cid2 st2 ct2 ch2,
          addConnection opts s' cid2 st2 ct2 (some u) ch2 =
            .error (.quotaExceeded opts.maxConnectionsPerUser u) ∧
          applyOp opts s' (Op.add cid2 st2 ct2 (some u) ch2) = s') := by
  have htru : truthyStr (some u) = true := by simp [truthyStr, hu]
  constructor
  · intro cid st ct ch
    by_cases hq : quotaRejected opts s (some u) = true
    · have he : addConnection opts s cid st ct (some u) ch
          = .error (.quotaExceeded opts.maxConnectionsPerUser u) :=
        addConnection_error_iff.mpr ⟨hq, rfl⟩
      rw [he]
      have hge : ¬ getUserConnectionCount s u < opts.maxConnectionsPerUser := by
        simp [quotaRejected, hu] at hq
        omega
      simp [Except.isOk, Except.toBool, hge]
    · have hq' : quotaRejected opts s (some u) = false := by
        revert hq
        cases quotaRejected opts s (some u) <;> simp
      have ho : addConnection opts s cid st ct (some u) ch
          = .ok (_, ⟨cid, some u, ch, st, ct⟩) :=
        addConnection_ok_iff.mpr ⟨hq', rfl, rfl⟩
      rw [ho]
      have hlt : getUserConnectionCount s u < opts.maxConnectionsPerUser := by
        simp [quotaRejected, hu] at hq'
        omega
      simp [Except.isOk, Except.toBool, hlt]
  · intro cid st ct ch hbelow hnotin
    have hq' : quotaRejected opts s (some u) = false := by
      simp [quotaRejected, hu]
      omega
    refine ⟨_, _, addConnection_ok_iff.mpr ⟨hq', rfl, rfl⟩, ?_, ?_⟩
    · dsimp only
      rw [if_pos htru]
      show getUserConnectionCount
        { connections := _, userConnections := indexAdd s.userConnections u cid,
          channelConnections := _ } u = opts.maxConnectionsPerUser
      unfold getUserConnectionCount
      dsimp only
      rw [mget_indexAdd_self]
      cases hp : mget s.userConnections u with
      | none =>
          have h0 : getUserConnectionCount s u = 0 := by
            simp [getUserConnectionCount, hp]
          show (sadd [] cid).length = opts.maxConnectionsPerUser
          simp [sadd]
          omega
      | some p =>
          have hlen : (sadd p cid).length = p.length + 1 :=
            length_sadd_of_not_mem (hnotin p hp)
          have hcp : getUserConnectionCount s u = p.length := by
            simp [getUserConnectionCount, hp]
          show (sadd p cid).length = opts.maxConnectionsPerUser
          omega
    · intro cid2 st2 ct2 ch2
      have hcnt : getUserConnectionCount
          { connections := mset s.connections cid ⟨cid, some u, ch, st, ct⟩,
            userConnections :=
              if truthyStr (some u) = true then
                indexAdd s.userConnections u cid
              else s.userConnections,
            channelConnections :=
              if truthyStr ch = true then
                indexAdd s.channelConnections (ch.getD "") cid
              else s.channelConnections } u = opts.maxConnectionsPerUser := by
        rw [if_pos htru]
        unfold getUserConnectionCount
        dsimp only
        rw [mget_indexAdd_self]
        cases hp : mget s.userConnections u with
        | none =>
            have h0 : getUserConnectionCount s u = 0 := by
              simp [getUserConnectionCount, hp]
            show (sadd [] cid).length = opts.maxConnectionsPerUser
            simp [sadd]
            omega
        | some p =>
            have hlen : (sadd p cid).length = p.length + 1 :=
              length_sadd_of_not_mem (hnotin p hp)
            have hcp : getUserConnectionCount s u = p.length := by
              simp [getUserConnectionCount, hp]
            show (sadd p cid).length = opts.maxConnectionsPerUser
            omega
      have hq2 : quotaRejected opts
          { connections := mset s.connections cid ⟨cid, some u, ch, st, ct⟩,
            userConnections :=
              if truthyStr (some u) = true then
                indexAdd s.userConnections u cid
              else s.userConnections,
            channelConnections :=
              if truthyStr ch = true then
                indexAdd s.channelConnections (ch.getD "") cid
              else s.channelConnections } (some u) = true := by
        simp [quotaRejected, hu, hcnt]
      have he : addConnection opts
          ({ connections :=
               mset s.connections cid ⟨cid, some u, ch, st, ct⟩,
             userConnections :=
               if truthyStr (some u) = true then
                 indexAdd s.userConnections u cid
               else s.userConnections,
             channelConnections :=
               if truthyStr ch = true then
                 indexAdd s.channelConnections (ch.getD "") cid
               else s.channelConnections } : ManagerState)
          cid2 st2 ct2 (some u) ch2
          = .error (.quotaExceeded opts.maxConnectionsPerUser u) :=
        addConnection_error_iff.mpr ⟨hq2, rfl⟩
      exact ⟨he, by simp [applyOp, he]⟩

/-- Witness for C7's theorem: with `maxConnectionsPerUser = 1` and an empty
registry, the first add for `"u1"` reaches the quota and the next is
rejected. -/
theorem addConnection_quota_boundary_witness :
    ("u1" : String) ≠ "" ∧
    getUserConnectionCount initialState "u1" + 1
      = ({ maxConnectionsPerUser := 1 } : ManagerOptions).maxConnectionsPerUser ∧
    (∃ s' c, addConnection { maxConnectionsPerUser := 1 } initialState
        "c1" 0 0 (some "u1") none = .ok (s', c) ∧
      getUserConnectionCount s' "u1"
        = ({ maxConnectionsPerUser := 1 } : ManagerOptions).maxConnectionsPerUser ∧
      ∀ cid2 st2 ct2 ch2,
        addConnection { maxConnectionsPerUser := 1 } s' cid2 st2 ct2
            (some "u1") ch2 = .error (.quotaExceeded 1 "u1") ∧
        applyOp { maxConnectionsPerUser := 1 } s'
          (Op.add cid2 st2 ct2 (some "u1") ch2) = s') :=
  ⟨by decide, by decide,
   (addConnection_quota_boundary { maxConnectionsPerUser := 1 } initialState
      "u1" (by decide)).2 "c1" 0 0 none (by decide)
      (fun ids h => Option.noConfusion h)⟩

/-! ### C6 -/

theorem keys_removeConnection_nodup {s : ManagerState} (cid : String)
    (h : (s.connections.map Prod.fst).Nodup) :
    ((removeConnection s cid).connections.map Prod.fst).Nodup := by
  cases hc : mget s.connections cid with
  | none => rw [removeConnection_not_found hc]; exact h
  | some conn =>
      rw [removeConnection_found hc]
      exact keys_mdelete_nodup _ _ h

theorem mget_removeConnection_self {s : ManagerState} {cid : String}
    (h : (s.connections.map Prod.fst).Nodup) :
    mget (removeConnection s cid).connections cid = none := by
  cases hc : mget s.connections cid with
  | none => rw [removeConnection_not_found hc]; exact hc
  | some conn =>
      rw [removeConnection_found hc]
      exact mget_mdelete_self h

theorem removeConnection_idem {s : ManagerState} (cid : String)
    (h : (s.connections.map Prod.fst).Nodup) :
    removeConnection (removeConnection s cid) cid = removeConnection s cid :=
  removeConnection_not_found (mget_removeConnection_self h)

theorem closeTimes_fixed (conn : WSConnection) (code : Option Nat)
    (reason : Option String) (n : Nat) (s₁ : ManagerState)
    (hfix : removeConnection s₁ conn.id = s₁) :
    closeTimes conn code reason n s₁
      = (s₁, List.replicate n (.closed conn.closeTag code reason)) := by
  induction n with
  | zero => simp [closeTimes]
  | succ n ih => simp [closeTimes, closeOnce, hfix, ih, List.replicate_succ]

/-- C6 counterexample: the `close` closure is
`closeFn(code, reason); removeConnection(connectionId)` with no guard, so
calling it twice invokes `closeRaw` twice — not exactly once. -/
theorem close_twice_invokes_closeRaw_twice :
    (closeTimes ⟨"a", none, none, 0, 7⟩ none none 2
        { connections := [("a", ⟨"a", none, none, 0, 7⟩)],
          userConnections := [], channelConnections := [] }).2
      = [.closed 7 none none, .closed 7 none none] := by
  rfl

/-- C6 (amended): every one of the N calls to the record's `close` invokes
`closeRaw` again (N calls, N invocations — there is no once-guard and no
`alive` flag); the registry state, however, reaches `removeConnection` after
the first call and `removeConnection` is idempotent, so calls after the
first do not change the registry further. -/
theorem close_n_times_behavior (s : ManagerState) (conn : WSConnection)
    (code : Option Nat) (reason : Option String) (n : Nat)
    (hkeys : (s.connections.map Prod.fst).Nodup) :
    closeTimes conn code reason (n + 1) s
      = (removeConnection s conn.id,
         List.replicate (n + 1) (.closed conn.closeTag code reason)) := by
  have hfix := removeConnection_idem conn.id hkeys
  simp [closeTimes, closeOnce, closeTimes_fixed conn code reason n _ hfix,
    List.replicate_succ]

/-- Witness for C6's amended theorem: two `close` calls on a registered
record produce two `closeRaw` invocations and the once-removed state. -/
theorem close_n_times_behavior_witness :
    (({ connections := [("a", ⟨"a", none, none, 0, 7⟩)],
        userConnections := [], channelConnections := [] } :
        ManagerState).connections.map Prod.fst).Nodup ∧
    closeTimes ⟨"a", none, none, 0, 7⟩ none none 2
        { connections := [("a", ⟨"a", none, none, 0, 7⟩)],
          userConnections := [], channelConnections := [] }
      = (removeConnection
          { connections := [("a", ⟨"a", none, none, 0, 7⟩)],
            userConnections := [], channelConnections := [] } "a",
         List.replicate 2 (.closed 7 none none)) :=
  ⟨by decide,
   close_n_times_behavior
     { connections := [("a", ⟨"a", none, none, 0, 7⟩)],
       userConnections := [], channelConnections := [] }
     ⟨"a", none, none, 0, 7⟩ none none 1 (by decide)⟩

/-! ### C9 -/

/-- C9: the record returned by `addConnection` captures only `sendFn`
(closure tag) in its `send`; `removeConnection` touches only the three maps.
So after removal the record is gone from the registry, yet a direct
`record.send(msg)` still encodes `msg` and invokes the captured `sendRaw`
with exactly the same wire bytes as before removal. -/
theorem record_send_unaffected_by_removal (opts : ManagerOptions)
    (s : ManagerState) (cid : String) (st ct : Nat)
    (userId channel : Option String) (env : Env) (msg : WebSocketMessage)
    (now : Int) {s' : ManagerState} {conn : WSConnection}
    (hkeys : (s.connections.map Prod.fst).Nodup)
    (hok : addConnection opts s cid st ct userId channel = .ok (s', conn)) :
    mget (removeConnection s' cid).connections cid = none ∧
    WSConnection.send env conn msg now
      = (encodeWsMessage msg now, env st (encodeWsMessage msg now)) := by
  rw [addConnection_ok_iff] at hok
  obtain ⟨hq, rfl, rfl⟩ := hok
  constructor
  · exact mget_removeConnection_self (keys_mset_nodup _ _ _ hkeys)
  · rfl

/-- Witness for C9's theorem: add `"a"`, remove it, and the record's `send`
still produces the same wire write on transport tag 5. -/
theorem record_send_unaffected_by_removal_witness :
    (((initialState : ManagerState).connections.map Prod.fst).Nodup ∧
      addConnection {} initialState "a" 5 6 (some "u") none
        = .ok ({ connections := [("a", ⟨"a", some "u", none, 5, 6⟩)],
                 userConnections := [("u", ["a"])],
                 channelConnections := [] }, ⟨"a", some "u", none, 5, 6⟩)) ∧
    (mget (removeConnection
        { connections := [("a", ⟨"a", some "u", none, 5, 6⟩)],
          userConnections := [("u", ["a"])],
          channelConnections := [] } "a").connections "a" = none ∧
      WSConnection.send (fun _ _ => none) ⟨"a", some "u", none, 5, 6⟩
          ⟨"hello", Js.null, none, none⟩ 3
        = (encodeWsMessage ⟨"hello", Js.null, none, none⟩ 3,
           (fun _ _ => (none : Option String)) 5
             (encodeWsMessage ⟨"hello", Js.null, none, none⟩ 3))) :=
  ⟨⟨by decide, by rfl⟩,
   record_send_unaffected_by_removal {} initialState "a" 5 6 (some "u") none
     (fun _ _ => none) ⟨"hello", Js.null, none, none⟩ 3 (by decide) (by rfl)⟩

/-! ### C10 -/

/-- The empty string is never an index key: inserts happen only under truthy
keys.  This holds for every reachable state, duplicate-id adds included. -/
def NoEmptyKeys (s : ManagerState) : Prop :=
  mget s.userConnections "" = none ∧ mget s.channelConnections "" = none

/-- A state the manager can actually be in: reached from the fresh manager
by some sequence of `addConnection` / `removeConnection` calls. -/
def Reachable (opts : ManagerOptions) (s : ManagerState) : Prop :=
  ∃ ops, runOps opts initialState ops = s

theorem noEmptyKeys_applyOp (opts : ManagerOptions) (s : ManagerState)
    (op : Op) (h : NoEmptyKeys s) : NoEmptyKeys (applyOp opts s op) := by
  obtain ⟨hu, hc⟩ := h
  cases op with
  | add cid st ct userId channel =>
      cases hr : addConnection opts s cid st ct userId channel with
      | error e => simpa [applyOp, hr] using ⟨hu, hc⟩
      | ok r =>
          obtain ⟨s', conn⟩ := r
          have hr' := hr
          rw [addConnection_ok_iff] at hr'
          obtain ⟨hq, -, rfl⟩ := hr'
          simp only [applyOp, hr]
          constructor
          · dsimp only
            by_cases ht : truthyStr userId = true
            · rw [if_pos ht]
              obtain ⟨w, hw, hwne⟩ := truthyStr_iff.mp ht
              have hne : "" ≠ userId.getD "" := by
                rw [hw]
                simpa using (Ne.symm hwne)
              rw [mget_indexAdd_ne _ _ hne]
              exact hu
            · rw [if_neg ht]
              exact hu
          · dsimp only
            by_cases ht : truthyStr channel = true
            · rw [if_pos ht]
              obtain ⟨w, hw, hwne⟩ := truthyStr_iff.mp ht
              have hne : "" ≠ channel.getD "" := by
                rw [hw]
                simpa using (Ne.symm hwne)
              rw [mget_indexAdd_ne _ _ hne]
              exact hc
            · rw [if_neg ht]
              exact hc
  | remove cid =>
      show NoEmptyKeys (removeConnection s cid)
      cases hg : mget s.connections cid with
      | none => rw [removeConnection_not_found hg]; exact ⟨hu, hc⟩
      | some conn =>
          rw [removeConnection_found hg]
          constructor
          · dsimp only
            by_cases ht : truthyStr conn.userId = true
            · rw [if_pos ht]
              obtain ⟨w, hw, hwne⟩ := truthyStr_iff.mp ht
              have hne : "" ≠ conn.userId.getD "" := by
                rw [hw]
                simpa using (Ne.symm hwne)
              rw [mget_indexRemove_ne _ _ hne]
              exact hu
            · rw [if_neg ht]
              exact hu
          · dsimp only
            by_cases ht : truthyStr conn.channel = true
            · rw [if_pos ht]
              obtain ⟨w, hw, hwne⟩ := truthyStr_iff.mp ht
              have hne : "" ≠ conn.channel.getD "" := by
                rw [hw]
                simpa using (Ne.symm hwne)
              rw [mget_indexRemove_ne _ _ hne]
              exact hc
            · rw [if_neg ht]
              exact hc

theorem noEmptyKeys_of_reachable {opts : ManagerOptions} {s : ManagerState}
    (h : Reachable opts s) : NoEmptyKeys s := by
  obtain ⟨ops, rfl⟩ := h
  have hrun : ∀ s₀, NoEmptyKeys s₀ → NoEmptyKeys (runOps opts s₀ ops) := by
    induction ops with
    | nil => intro s₀ h₀; exact h₀
    | cons op rest ih =>
        intro s₀ h₀
        rw [runOps]
        exact ih _ (noEmptyKeys_applyOp opts s₀ op h₀)
  exact hrun initialState ⟨rfl, rfl⟩

/-- C10: an empty-string userId (and symmetrically an empty-string channel)
is fully anonymous.  Such an `addConnection` is never quota-rejected and
inserts nothing into `byUser` / `byChannel`, and in every reachable state
`sendToUser("")` / `sendToChannel("")` return 0 (sending nothing) and the
corresponding counts are 0. -/
theorem empty_ids_are_anonymous (opts : ManagerOptions) (s : ManagerState)
    (env : Env) (msg : WebSocketMessage) (now : Int)
    (hreach : Reachable opts s) :
    (∀ cid st ct ch, ∃ s' c,
        addConnection opts s cid st ct (some "") ch = .ok (s', c) ∧
        s'.userConnections = s.userConnections) ∧
    sendToUser env s "" msg now = .ok 0 ∧
    getUserConnectionCount s "" = 0 ∧
    (∀ cid st ct u, quotaRejected opts s u = false →
      ∃ s' c, addConnection opts s cid st ct u (some "") = .ok (s', c) ∧
        s'.channelConnections = s.channelConnections) ∧
    sendToChannel env s "" msg now = .ok 0 ∧
    getChannelConnectionCount s "" = 0 := by
  obtain ⟨hu, hc⟩ := noEmptyKeys_of_reachable hreach
  refine ⟨?_, ?_, ?_, ?_, ?_, ?_⟩
  · intro cid st ct ch
    have hq : quotaRejected opts s (some "") = false := by
      simp [quotaRejected]
    refine ⟨_, _, addConnection_ok_iff.mpr ⟨hq, rfl, rfl⟩, ?_⟩
    have ht : truthyStr (some "") = false := by simp [truthyStr]
    dsimp only
    rw [if_neg (by simp [ht])]
  · rw [sendToUser, hu]
  · rw [getUserConnectionCount, hu]
  · intro cid st ct u hq
    refine ⟨_, _, addConnection_ok_iff.mpr ⟨hq, rfl, rfl⟩, ?_⟩
    have ht : truthyStr (some "") = false := by simp [truthyStr]
    dsimp only
    rw [if_neg (by simp [ht])]
  · rw [sendToChannel, hc]
  · rw [getChannelConnectionCount, hc]

/-- Witness for C10's theorem at a concrete reachable state (one anonymous
connection added with empty userId and empty channel). -/
theorem empty_ids_are_anonymous_witness :
    Reachable {} (runOps {} initialState [Op.add "a" 0 0 (some "") (some "")]) ∧
    ((∀ cid st ct ch, ∃ s' c,
        addConnection {} (runOps {} initialState
            [Op.add "a" 0 0 (some "") (some "")]) cid st ct (some "") ch
          = .ok (s', c) ∧
        s'.userConnections = (runOps {} initialState
            [Op.add "a" 0 0 (some "") (some "")]).userConnections) ∧
      sendToUser (fun _ _ => none) (runOps {} initialState
          [Op.add "a" 0 0 (some "") (some "")]) "" ⟨"m", Js.null, none, none⟩ 0
        = .ok 0 ∧
      getUserConnectionCount (runOps {} initialState
          [Op.add "a" 0 0 (some "") (some "")]) "" = 0 ∧
      (∀ cid st ct u, quotaRejected {} (runOps {} initialState
            [Op.add "a" 0 0 (some "") (some "")]) u = false →
        ∃ s' c, addConnection {} (runOps {} initialState
            [Op.add "a" 0 0 (some "") (some "")]) cid st ct u (some "")
          = .ok (s', c) ∧
        s'.channelConnections = (runOps {} initialState
            [Op.add "a" 0 0 (some "") (some "")]).channelConnections) ∧
      sendToChannel (fun _ _ => none) (runOps {} initialState
          [Op.add "a" 0 0 (some "") (some "")]) "" ⟨"m", Js.null, none, none⟩ 0
        = .ok 0 ∧
      getChannelConnectionCount (runOps {} initialState
          [Op.add "a" 0 0 (some "") (some "")]) "" = 0) :=
  ⟨⟨[Op.add "a" 0 0 (some "") (some "")], rfl⟩,
   empty_ids_are_anonymous {} _ (fun _ _ => none) ⟨"m", Js.null, none, none⟩ 0
     ⟨[Op.add "a" 0 0 (some "") (some "")], rfl⟩⟩

/-! ### C3 -/

/-- C3 counterexample: the publish loops contain no try/catch.  With `c1`
(tag 0) and `c2` (tag 1) in channel `"x"` and `c1`'s `sendRaw` throwing,
`sendToChannel` does not return a count: the exception propagates (so `c2`
is never counted and `c1` is not removed — the operation returns no state). -/
theorem sendToChannel_transport_throw_propagates :
    sendToChannel (fun t _ => if t = 0 then some "boom" else none)
      { connections :=
          [("c1", ⟨"c1", none, some "x", 0, 0⟩),
           ("c2", ⟨"c2", none, some "x", 1, 1⟩)],
        userConnections := [],
        channelConnections := [("x", ["c1", "c2"])] }
      "x" ⟨"m", Js.null, none, none⟩ 0 = .error "boom" := by
  rfl

theorem sendLoop_all_ok (env : Env) (s : ManagerState) (ids : List String)
    (message : WebSocketMessage) (now : Int)
    (hok : ∀ tag, env tag (encodeWsMessage message now) = none) :
    sendLoop env s ids message now
      = .ok (ids.countP (fun id => (mget s.connections id).isSome)) := by
  induction ids with
  | nil => simp [sendLoop]
  | cons id rest ih =>
      cases hc : mget s.connections id with
      | none =>
          simp [sendLoop, sendToConnection, hc, ih, List.countP_cons]
      | some c =>
          simp [sendLoop, sendToConnection, hc, WSConnection.send, sendMessage,
            hok c.sendTag, ih, List.countP_cons, Except.map]

theorem broadcastLoop_all_ok (env : Env) (conns : List WSConnection)
    (message : WebSocketMessage) (now : Int)
    (hok : ∀ tag, env tag (encodeWsMessage message now) = none) :
    broadcastLoop env conns message now = .ok conns.length := by
  induction conns with
  | nil => simp [broadcastLoop]
  | cons c rest ih =>
      simp [broadcastLoop, WSConnection.send, sendMessage, hok c.sendTag, ih,
        Except.map]

/-- C3 (amended): a `sendRaw` error is not caught by the publish loops: it
propagates out of `sendToUser` / `sendToChannel` / `broadcast`, aborting the
iteration with no count and no removal.  When no targeted `sendRaw` throws,
each operation returns normally and the count equals the number of targeted
ids registered in `connections` (all records, for `broadcast`). -/
theorem publish_counts_when_transports_ok (env : Env) (s : ManagerState)
    (message : WebSocketMessage) (now : Int)
    (hok : ∀ tag, env tag (encodeWsMessage message now) = none) :
    broadcast env s message now = .ok s.connections.length ∧
    (∀ u, sendToUser env s u message now
        = .ok (((mget s.userConnections u).getD []).countP
            (fun id => (mget s.connections id).isSome))) ∧
    (∀ ch, sendToChannel env s ch message now
        = .ok (((mget s.channelConnections ch).getD []).countP
            (fun id => (mget s.connections id).isSome))) := by
  refine ⟨?_, ?_, ?_⟩
  · rw [broadcast, broadcastLoop_all_ok env _ message now hok]
    simp
  · intro u
    cases hm : mget s.userConnections u with
    | none => simp [sendToUser, hm]
    | some ids => simp [sendToUser, hm, sendLoop_all_ok env s ids message now hok]
  · intro ch
    cases hm : mget s.channelConnections ch with
    | none => simp [sendToChannel, hm]
    | some ids => simp [sendToChannel, hm, sendLoop_all_ok env s ids message now hok]

/-- Witness for C3's amended theorem: two connections in channel `"x"`, one
stale id in the index, all transports healthy — `broadcast` counts 2,
`sendToChannel "x"` counts 2 (the stale id is not counted). -/
theorem publish_counts_when_transports_ok_witness :
    (∀ tag, (fun (_ : Nat) (_ : String) => (none : Option String)) tag
        (encodeWsMessage ⟨"m", Js.null, none, none⟩ 0) = none) ∧
    (broadcast (fun _ _ => none)
        { connections :=
            [("c1", ⟨"c1", none, some "x", 0, 0⟩),
             ("c2", ⟨"c2", none, some "x", 1, 1⟩)],
          userConnections := [],
          channelConnections := [("x", ["c1", "c2", "gone"])] }
        ⟨"m", Js.null, none, none⟩ 0 = .ok 2 ∧
      sendToChannel (fun _ _ => none)
        { connections :=
            [("c1", ⟨"c1", none, some "x", 0, 0⟩),
             ("c2", ⟨"c2", none, some "x", 1, 1⟩)],
          userConnections := [],
          channelConnections := [("x", ["c1", "c2", "gone"])] }
        "x" ⟨"m", Js.null, none, none⟩ 0 = .ok 2) :=
  ⟨fun _ => rfl,
   by
    have h := publish_counts_when_transports_ok (fun _ _ => none)
      { connections :=
          [("c1", ⟨"c1", none, some "x", 0, 0⟩),
           ("c2", ⟨"c2", none, some "x", 1, 1⟩)],
        userConnections := [],
        channelConnections := [("x", ["c1", "c2", "gone"])] }
      ⟨"m", Js.null, none, none⟩ 0 (fun _ => rfl)
    exact ⟨h.1, h.2.2 "x"⟩⟩

/-! ### C4 -/

/-- C4 counterexample: the `catch` block emits the error frame through
`connection.send`, which is not itself guarded; if the transport's `sendRaw`
throws while the error frame is emitted (here: after a parse failure), the
exception escapes `handleMessage`. -/
theorem handleMessage_escapes_when_error_send_throws :
    (handleMessage
        ⟨{}, (fun t _ => if t = 0 then some "io fail" else none),
         (fun _ => .error "Unexpected token"), [], 0⟩
        { connections := [("a", ⟨"a", none, none, 0, 0⟩)],
          userConnections := [], channelConnections := [] }
        "a" "!!").2 = some "io fail" := by
  rfl

/-- C4 (amended): `handleMessage` catches parse failures, validation
failures and handler exceptions/rejections and converts each caught error
into an error frame `{type:"error", payload:{error:<message>}}` sent on the
originating connection; it propagates an exception only when that
connection's own `sendRaw` throws while a frame is being emitted.  So when
the originating transport's `sendRaw` never throws, no exception escapes,
for every parse result, every handler map and every handler outcome. -/
theorem handleMessage_no_escape_when_transport_ok (ctx : HandleCtx)
    (s : ManagerState) (cid raw : String)
    (hok : ∀ c, mget s.connections cid = some c →
      ∀ d, ctx.env c.sendTag d = none) :
    (handleMessage ctx s cid raw).2 = none ∧
    (∀ conn e, mget s.connections cid = some conn →
      (handleBody ctx conn raw).2 = some e →
      (handleMessage ctx s cid raw).1
        = (handleBody ctx conn raw).1 ++
          [.sent conn.sendTag (encodeWsMessage (errorFrame e) ctx.now)]) := by
  constructor
  · cases hc : mget s.connections cid with
    | none => simp [handleMessage, hc]
    | some conn =>
        rcases hb : handleBody ctx conn raw with ⟨evts, err⟩
        cases err with
        | none => simp [handleMessage, hc, hb]
        | some e =>
            simp [handleMessage, hc, hb, WSConnection.send, sendMessage,
              hok conn hc]
  · intro conn e hc hbe
    rcases hb : handleBody ctx conn raw with ⟨evts, err⟩
    rw [hb] at hbe
    dsimp at hbe
    subst hbe
    simp [handleMessage, hc, hb, WSConnection.send, sendMessage]

/-- Witness for C4's amended theorem: a healthy transport, an inbound frame
whose handler throws — the failure becomes an error frame and nothing
escapes. -/
theorem handleMessage_no_escape_when_transport_ok_witness :
    (∀ c, mget ({ connections := [("a", ⟨"a", none, none, 0, 0⟩)],
                  userConnections := [], channelConnections := [] } :
            ManagerState).connections "a" = some c →
      ∀ d, (fun (_ : Nat) (_ : String) => (none : Option String)) c.sendTag d
        = none) ∧
    ((handleMessage
        ⟨{}, (fun _ _ => none),
         (fun _ => .ok ⟨"t", Js.null, none, none⟩),
         [("t", fun _ _ => .error "handler boom")], 0⟩
        { connections := [("a", ⟨"a", none, none, 0, 0⟩)],
          userConnections := [], channelConnections := [] }
        "a" "x").2 = none ∧
      (∀ conn e, mget ({ connections := [("a", ⟨"a", none, none, 0, 0⟩)],
                         userConnections := [],
                         channelConnections := [] } :
              ManagerState).connections "a" = some conn →
        (handleBody
            ⟨{}, (fun _ _ => none),
             (fun _ => .ok ⟨"t", Js.null, none, none⟩),
             [("t", fun _ _ => .error "handler boom")], 0⟩ conn "x").2 = some e →
        (handleMessage
            ⟨{}, (fun _ _ => none),
             (fun _ => .ok ⟨"t", Js.null, none, none⟩),
             [("t", fun _ _ => .error "handler boom")], 0⟩
            { connections := [("a", ⟨"a", none, none, 0, 0⟩)],
              userConnections := [], channelConnections := [] }
            "a" "x").1
          = (handleBody
              ⟨{}, (fun _ _ => none),
               (fun _ => .ok ⟨"t", Js.null, none, none⟩),
               [("t", fun _ _ => .error "handler boom")], 0⟩ conn "x").1 ++
            [.sent conn.sendTag (encodeWsMessage (errorFrame e) 0)])) :=
  ⟨fun _ _ _ => rfl,
   handleMessage_no_escape_when_transport_ok
     ⟨{}, (fun _ _ => none),
      (fun _ => .ok ⟨"t", Js.null, none, none⟩),
      [("t", fun _ _ => .error "handler boom")], 0⟩
     { connections := [("a", ⟨"a", none, none, 0, 0⟩)],
       userConnections := [], channelConnections := [] }
     "a" "x" (fun _ _ _ => rfl)⟩

/-! ### C5 -/

/-- C5 counterexample: in the source the parse (and the type check) run
before the size check.  With `maxMessageSize = 2`, the oversized and
unparseable frame `"!!!"` is parsed first, and the frame emitted is the
parse error — not the size error the claim requires. -/
theorem handleMessage_oversized_frame_parses_first :
    handleMessage
        ⟨{ maxMessageSize := 2 }, (fun _ _ => none),
         (fun _ => .error "Unexpected token"), [], 0⟩
        { connections := [("a", ⟨"a", none, none, 0, 0⟩)],
          userConnections := [], channelConnections := [] }
        "a" "!!!"
      = ([.sent 0 (encodeWsMessage (errorFrame "Unexpected token") 0)], none) ∧
    encodeWsMessage (errorFrame "Unexpected token") 0
      ≠ encodeWsMessage
          (errorFrame "Message size exceeds maximum allowed size") 0 := by
  constructor
  · rfl
  · decide

/-- C5 (amended): the size check `rawMessage.length > maxMessageSize` is
performed after the parse and the type validation (step 3 of the code, not
step 2): an oversized frame that parses to a message with a non-empty type
gets exactly the size error frame, and no handler runs (the result is the
same for every handler map); a frame of length at most `maxMessageSize`
whose type has a succeeding handler is not rejected at all — in particular
length exactly `maxMessageSize` is accepted. -/
theorem handleMessage_size_check_after_parse (ctx : HandleCtx)
    (s : ManagerState) (cid raw : String) (conn : WSConnection)
    (m : WebSocketMessage)
    (hc : mget s.connections cid = some conn)
    (hp : ctx.parse raw = .ok m)
    (htype : m.type ≠ "") :
    (raw.length > ctx.opts.maxMessageSize →
      ∀ hs, handleMessage { ctx with handlers := hs } s cid raw
        = ([.sent conn.sendTag
             (encodeWsMessage
               (errorFrame "Message size exceeds maximum allowed size") ctx.now)],
           ctx.env conn.sendTag
             (encodeWsMessage
               (errorFrame "Message size exceeds maximum allowed size") ctx.now))) ∧
    (raw.length ≤ ctx.opts.maxMessageSize →
      ∀ handler, mget ctx.handlers m.type = some handler →
        handler conn m = .ok () →
        handleMessage ctx s cid raw = ([], none)) := by
  constructor
  · intro hsize hs
    simp [handleMessage, handleBody, hc, hp, htype, hsize, WSConnection.send,
      sendMessage]
  · intro hsize handler hh hrun
    have hng : ¬ raw.length > ctx.opts.maxMessageSize := by omega
    simp [handleMessage, handleBody, hc, hp, htype, hng, hh, hrun]

/-- Witness for C5's amended theorem: `maxMessageSize = 2`, the frame
`"!!!"` of length 3 parses to type `"t"`; the size error frame is emitted
and the registered handler does not run. -/
theorem handleMessage_size_check_after_parse_witness :
    mget ({ connections := [("a", ⟨"a", none, none, 0, 0⟩)],
            userConnections := [], channelConnections := [] } :
        ManagerState).connections "a" = some ⟨"a", none, none, 0, 0⟩ ∧
    (fun (_ : String) => (.ok ⟨"t", Js.null, none, none⟩ :
        Except String WebSocketMessage)) "!!!"
      = .ok ⟨"t", Js.null, none, none⟩ ∧
    ("t" : String) ≠ "" ∧
    (("!!!" : String).length >
        ({ maxMessageSize := 2 } : ManagerOptions).maxMessageSize →
      ∀ hs, handleMessage
          { (⟨{ maxMessageSize := 2 }, (fun _ _ => none),
              (fun _ => .ok ⟨"t", Js.null, none, none⟩),
              [("t", fun _ _ => .ok ())], 0⟩ : HandleCtx) with handlers := hs }
          { connections := [("a", ⟨"a", none, none, 0, 0⟩)],
            userConnections := [], channelConnections := [] }
          "a" "!!!"
        = ([.sent 0 (encodeWsMessage
             (errorFrame "Message size exceeds maximum allowed size") 0)],
           none)) :=
  ⟨rfl, rfl, by decide,
   fun hsize hs => by
    have h := (handleMessage_size_check_after_parse
      ⟨{ maxMessageSize := 2 }, (fun _ _ => none),
       (fun _ => .ok ⟨"t", Js.null, none, none⟩),
       [("t", fun _ _ => .ok ())], 0⟩
      { connections := [("a", ⟨"a", none, none, 0, 0⟩)],
        userConnections := [], channelConnections := [] }
      "a" "!!!" ⟨"a", none, none, 0, 0⟩ ⟨"t", Js.null, none, none⟩
      rfl rfl (by decide)).1 hsize hs
    exact h⟩

/-! ### C8 -/

/-- C8 counterexample: the encoder guards each optional line with JS
truthiness, not presence.  An event with `retry` present but equal to `0`
omits the `retry` line, so the output differs from the concatenation the
claim describes (and likewise a present-but-empty `id` or `event` would be
dropped). -/
theorem sseFrame_omits_falsy_retry :
    sseFrame { data := .str "x", retry := some 0 } = "data: x\n\n" ∧
    sseFrameSpec { data := .str "x", retry := some 0 }
      = "data: x\nretry: 0\n\n" ∧
    sseFrame { data := .str "x", retry := some 0 }
      ≠ sseFrameSpec { data := .str "x", retry := some 0 } := by
  refine ⟨rfl, rfl, ?_⟩
  decide

/-- C8 (amended): the encoder emits, in order, `id: <id>\n`,
`event: <event>\n`, `data: <data>\n`, `retry: <ms>\n` and a terminating
blank line, where each optional line appears when the field is present *and
truthy* (non-empty `id`/`event`, nonzero `retry`); the `data` line is
emitted in every frame, as the raw string or the canonical single-line JSON
serialization.  Hence for every event whose optional fields are absent or
truthy, the frame is exactly the concatenation worded by the spec. -/
theorem sseFrame_matches_spec_on_truthy_fields (e : SSEEvent)
    (hid : e.id ≠ some "") (hev : e.event ≠ some "") (hr : e.retry ≠ some 0) :
    sseFrame e = sseFrameSpec e := by
  obtain ⟨i, ev, d, r⟩ := e
  simp only at hid hev hr
  cases i with
  | none =>
      cases ev with
      | none =>
          cases r with
          | none => rfl
          | some rv =>
              have hv : ¬ rv = 0 := fun h => hr (by rw [h])
              simp [sseFrame, sseFrameSpec, truthyStr, truthyInt, hv]
      | some evv =>
          have hevv : ¬ evv = "" := fun h => hev (by rw [h])
          cases r with
          | none => simp [sseFrame, sseFrameSpec, truthyStr, truthyInt, hevv]
          | some rv =>
              have hv : ¬ rv = 0 := fun h => hr (by rw [h])
              simp [sseFrame, sseFrameSpec, truthyStr, truthyInt, hevv, hv]
  | some iv =>
      have hiv : ¬ iv = "" := fun h => hid (by rw [h])
      cases ev with
      | none =>
          cases r with
          | none => simp [sseFrame, sseFrameSpec, truthyStr, truthyInt, hiv]
          | some rv =>
              have hv : ¬ rv = 0 := fun h => hr (by rw [h])
              simp [sseFrame, sseFrameSpec, truthyStr, truthyInt, hiv, hv]
      | some evv =>
          have hevv : ¬ evv = "" := fun h => hev (by rw [h])
          cases r with
          | none => simp [sseFrame, sseFrameSpec, truthyStr, truthyInt, hiv, hevv]
          | some rv =>
              have hv : ¬ rv = 0 := fun h => hr (by rw [h])
              simp [sseFrame, sseFrameSpec, truthyStr, truthyInt, hiv, hevv, hv]

/-- Witness for C8's amended theorem: a fully populated event with truthy
fields encodes exactly as the spec's concatenation. -/
theorem sseFrame_matches_spec_on_truthy_fields_witness :
    (({ id := some "7", event := some "update",
        data := .structured (.obj [("a", .num 1)]), retry := some 250 } :
        SSEEvent).id ≠ some "" ∧
      ({ id := some "7", event := some "update",
         data := .structured (.obj [("a", .num 1)]), retry := some 250 } :
         SSEEvent).event ≠ some "" ∧
      ({ id := some "7", event := some "update",
         data := .structured (.obj [("a", .num 1)]), retry := some 250 } :
         SSEEvent).retry ≠ some 0) ∧
    sseFrame { id := some "7", event := some "update",
               data := .structured (.obj [("a", .num 1)]), retry := some 250 }
      = sseFrameSpec { id := some "7", event := some "update",
                       data := .structured (.obj [("a", .num 1)]),
                       retry := some 250 } :=
  ⟨⟨by decide, by decide, by decide⟩,
   sseFrame_matches_spec_on_truthy_fields
     { id := some "7", event := some "update",
       data := .structured (.obj [("a", .num 1)]), retry := some 250 }
     (by decide) (by decide) (by decide)⟩
